import Mathlib

/-!
Verification of the content-generation pipeline's core layer: the
Normalizer (`src/agents/product_parser.py`), the Comparison Engine
(`src/logic_blocks/comparison.py`), the safety logic block
(`src/logic_blocks/safety.py`), FAQ question selection
(`src/agents/faq_agent.py`), the response-envelope parser shared by the
LLM-backed agents, and the stage sequencer (`src/orchestrator.py`).

Strings are modelled as `List Char`; Python floats are modelled as exact
rationals (`ℚ`), which is faithful for the decimal literals and
comparisons the code manipulates.  Python's `uuid4` randomness and the
LLM service are modelled as parameters.
-/

namespace Pipeline

/-- The backtick character (0x60), named so it can be used in fence markers. -/
def btick : Char := Char.ofNat 96

/-- Model of Python's whitespace class used by `str.strip()` and the regex
class `\s` (ASCII portion: space, tab, newline, carriage return, vertical
tab, form feed). -/
def isPyWs (c : Char) : Bool :=
  c = ' ' || c = '\t' || c = '\n' || c = '\r' || c = '\x0b' || c = '\x0c'

/-- Drop trailing whitespace (the right half of Python's `str.strip()`). -/
def dropEndWs : List Char → List Char
  | [] => []
  | c :: cs =>
    let r := dropEndWs cs
    if r.isEmpty then (if isPyWs c then [] else [c]) else c :: r

/-- Model of Python's `str.strip()`: drop leading and trailing whitespace. -/
def pyStrip (cs : List Char) : List Char :=
  (dropEndWs cs).dropWhile isPyWs

/-- Numeric value of a run of decimal digit characters. -/
def digitsToNat (ds : List Char) : Nat :=
  ds.foldl (fun n d => 10 * n + (d.toNat - 48)) 0

/-- The exact value of the decimal numeral with integer digits `ds` and
fractional digits `fs` (how Python's `float()` reads a matched numeral,
with floats modelled exactly). -/
def decToRat (ds fs : List Char) : ℚ :=
  ((digitsToNat (ds ++ fs) : ℕ) : ℚ) / ((10 : ℕ) : ℚ) ^ fs.length

/-- Split a character list into its maximal leading digit run and the rest. -/
def spanDigits (cs : List Char) : List Char × List Char :=
  (cs.takeWhile Char.isDigit, cs.dropWhile Char.isDigit)

/-- Value of the regex match `\d+(?:\.\d+)?` starting at the head of `cs`
(assumed to be a digit): greedy integer digits, then an optional fractional
part taken only when a `.` is immediately followed by at least one digit.
This is how Python's `float(match.group(1))` sees the matched text. -/
def matchNumberAt (cs : List Char) : ℚ :=
  let p := spanDigits cs
  match p.2 with
  | '.' :: r2 =>
      let q := spanDigits r2
      if q.1.isEmpty then decToRat p.1 []
      else decToRat p.1 q.1
  | _ => decToRat p.1 []

/-- Model of `re.search(r'(\d+(?:\.\d+)?)', s)` followed by `float(...)`:
scan left to right for the first digit and read the number that starts
there; `none`-like failure is reported by the callers as `0.0`, so this
returns an `Option`. -/
def searchNumber : List Char → Option ℚ
  | [] => none
  | c :: cs => if c.isDigit then some (matchNumberAt (c :: cs)) else searchNumber cs

/-- A loosely-typed field value of a raw product dictionary: a JSON number
or a string (the two primitive shapes the extraction code distinguishes
with `isinstance`). -/
inductive Value where
  | num (q : ℚ)
  | str (s : List Char)
deriving DecidableEq

/-- Characters removed by `re.sub(r'[₹$€£,\s]', '', value)` in
`_extract_price`. -/
def isCurrencyJunk (c : Char) : Bool :=
  c = '₹' || c = '$' || c = '€' || c = '£' || c = ',' || isPyWs c

/-- `ProductParserAgent._extract_concentration` (src/agents/product_parser.py,
lines 128-144): numeric input is returned as a float unchanged; otherwise the
first `\d+(?:\.\d+)?` match of the *unmodified* string is parsed; no digits
gives `0.0`.  Note: unlike `_extract_price`, nothing is stripped first. -/
def extract_concentration : Value → ℚ
  | .num q => q
  | .str s => (searchNumber s).getD 0

/-- `ProductParserAgent._extract_price` (src/agents/product_parser.py, lines
146-165) and the identical `_extract_price` of
src/logic_blocks/comparison.py (lines 180-193): numeric input is returned
unchanged; otherwise currency symbols, commas and whitespace are removed and
the first `\d+(?:\.\d+)?` match of the cleaned string is parsed; no digits
gives `0.0`. -/
def extract_price : Value → ℚ
  | .num q => q
  | .str s => (searchNumber (s.filter (fun c => !isCurrencyJunk c))).getD 0

/-- A raw list-like field: either a JSON array of strings or a comma string
(any other runtime type yields `[]` in the source; the input schema only
admits these two shapes for the list fields). -/
inductive ArrValue where
  | arr (items : List (List Char))
  | str (s : List Char)
deriving DecidableEq

/-- Split a character list on commas (Python `str.split(',')`). -/
def splitCommas : List Char → List (List Char)
  | [] => [[]]
  | c :: cs =>
    let r := splitCommas cs
    if c = ',' then [] :: r
    else match r with
      | [] => [[c]]
      | h :: t => (c :: h) :: t

/-- `ProductParserAgent._normalize_array` (src/agents/product_parser.py,
lines 167-182): a list keeps its truthy items stripped; a string is split on
commas, stripped, and empties dropped. -/
def normalize_array : ArrValue → List (List Char)
  | .arr items =>
      (items.filter (fun it => !it.isEmpty && !(pyStrip it).isEmpty)).map pyStrip
  | .str s => ((splitCommas s).map pyStrip).filter (fun it => !it.isEmpty)

/-- Lowercase via `Char.toLower`, modelling Python `str.lower()` (faithful on
ASCII, which is all the slug/set logic relies on). -/
def lowerStr (s : List Char) : List Char := s.map Char.toLower

/-- Lowercase alphanumeric test used by the slug regex `[^a-z0-9]+` after
lowercasing. -/
def isSlugChar (c : Char) : Bool := (c.isLower || c.isDigit)

/-- `re.sub(r'[^a-z0-9]+', '-', s)`: collapse each maximal run of
non-alphanumerics into a single hyphen.  The `inRun` flag records whether
the previous character belonged to a non-alphanumeric run whose hyphen has
already been emitted. -/
def collapseAux : Bool → List Char → List Char
  | _, [] => []
  | inRun, c :: cs =>
    if isSlugChar c then c :: collapseAux false cs
    else if inRun then collapseAux true cs
    else '-' :: collapseAux true cs

/-- `re.sub(r'[^a-z0-9]+', '-', s)` applied to a whole string. -/
def collapseNonSlug (cs : List Char) : List Char := collapseAux false cs

/-- Python `str.strip('-')`: drop leading and trailing hyphens. -/
def stripHyphens (cs : List Char) : List Char :=
  ((cs.dropWhile (fun c => c = '-')).reverse.dropWhile (fun c => c = '-')).reverse

/-- `ProductParserAgent._generate_id` (src/agents/product_parser.py, lines
120-126).  `suffix` stands for `str(uuid.uuid4())[:8]`, the 8-character
random suffix: the randomness of `uuid4` is modelled by quantifying over the
suffix. -/
def generate_id (name suffix : List Char) : List Char :=
  stripHyphens (collapseNonSlug (lowerStr name)) ++ '-' :: suffix

/-- Raw Product Input after schema validation: the required keys with the
loosely-typed values the normalizer handles. -/
structure RawProduct where
  product_name : List Char
  concentration : Value
  skin_type : ArrValue
  key_ingredients : ArrValue
  benefits : ArrValue
  how_to_use : List Char
  side_effects : List Char
  price : Value
deriving DecidableEq

/-- Canonical Product Record: the output shape of the Normalizer. -/
structure ParsedProduct where
  id : List Char
  name : List Char
  concentration : ℚ
  skin_type : List (List Char)
  ingredients : List (List Char)
  benefits : List (List Char)
  usage : List Char
  side_effects : List Char
  price : ℚ
deriving DecidableEq

/-- `ProductParserAgent._normalize` (src/agents/product_parser.py, lines
98-118), with the random uuid suffix passed as `suffix`. -/
def normalize (suffix : List Char) (raw : RawProduct) : ParsedProduct where
  id := generate_id raw.product_name suffix
  name := pyStrip raw.product_name
  concentration := extract_concentration raw.concentration
  skin_type := normalize_array raw.skin_type
  ingredients := normalize_array raw.key_ingredients
  benefits := normalize_array raw.benefits
  usage := pyStrip raw.how_to_use
  side_effects := pyStrip raw.side_effects
  price := extract_price raw.price

/-- The non-`id` content of a canonical record, used to state that
re-normalization is deterministic everywhere except the `id`. -/
def contentOf (p : ParsedProduct) :
    List Char × ℚ × List (List Char) × List (List Char) × List (List Char) ×
      List Char × List Char × ℚ :=
  (p.name, p.concentration, p.skin_type, p.ingredients, p.benefits,
    p.usage, p.side_effects, p.price)

/-! ## Comparison Engine (src/logic_blocks/comparison.py) -/

/-- Python's `round(x, 1)` tie-breaking: round half to even, applied to the
exact rational (binary-float artefacts are not modelled). -/
def roundHalfEven (x : ℚ) : ℤ :=
  if x - ⌊x⌋ < 1 / 2 then ⌊x⌋
  else if 1 / 2 < x - ⌊x⌋ then ⌊x⌋ + 1
  else if ⌊x⌋ % 2 = 0 then ⌊x⌋ else ⌊x⌋ + 1

/-- Python's `round(x, 1)`: round to one decimal place. -/
def round1 (x : ℚ) : ℚ := (roundHalfEven (10 * x) : ℤ) / 10

/-- One side of a comparison. -/
inductive Side where
  | a
  | b
deriving DecidableEq

/-- The `winner` tag of the score block (`"product_a"`, `"product_b"`,
`"tie"` in the source). -/
inductive Winner where
  | a
  | b
  | tie
deriving DecidableEq

/-- A product dictionary as consumed by `compare_products`: the canonical
record fields the logic blocks read.  `price` stays a loose `Value` because
`_extract_price` is applied to it. -/
structure BProduct where
  name : List Char
  ingredients : List (List Char)
  benefits : List (List Char)
  skin_type : List (List Char)
  concentration : ℚ
  price : Value
  side_effects : List Char
deriving DecidableEq

/-- `set(x.lower() for x in l)`: the case-insensitive set of a string list.
Python's `list(...)` of such a set has unspecified order, so set-derived
fields are modelled as `Finset`s. -/
def lowerSet (l : List (List Char)) : Finset (List Char) :=
  (l.map lowerStr).toFinset

/-- Result shape of `_compare_ingredients` (comparison.py lines 71-98).
The f-string `formatted` presentation fields are carried as the underlying
data. -/
structure IngredientsComparison where
  ingredients_a : List (List Char)
  count_a : ℕ
  concentration_a : ℚ
  ingredients_b : List (List Char)
  count_b : ℕ
  concentration_b : ℚ
  common_ingredients : Finset (List Char)
  unique_to_a : Finset (List Char)
  unique_to_b : Finset (List Char)
  analysis : List Char
deriving DecidableEq

/-- `_analyze_ingredients` (comparison.py lines 196-207). -/
def analyze_ingredients (common uA uB : Finset (List Char)) : List Char :=
  if common.Nonempty then
    "Products share ".data ++ (toString common.card).data ++
      " common ingredient(s), suggesting similar formulation approaches.".data
  else if uA.Nonempty ∧ uB.Nonempty then
    "Products have completely different ingredient profiles, catering to different skincare needs.".data
  else
    "Limited ingredient overlap between products.".data

/-- `_compare_ingredients` (comparison.py lines 71-98). -/
def compare_ingredients (pa pb : BProduct) : IngredientsComparison :=
  let ing_a := lowerSet pa.ingredients
  let ing_b := lowerSet pb.ingredients
  { ingredients_a := pa.ingredients
    count_a := pa.ingredients.length
    concentration_a := pa.concentration
    ingredients_b := pb.ingredients
    count_b := pb.ingredients.length
    concentration_b := pb.concentration
    common_ingredients := ing_a ∩ ing_b
    unique_to_a := ing_a \ ing_b
    unique_to_b := ing_b \ ing_a
    analysis := analyze_ingredients (ing_a ∩ ing_b) (ing_a \ ing_b) (ing_b \ ing_a) }

/-- Result shape of `_compare_benefits` (comparison.py lines 101-126). -/
structure BenefitsComparison where
  benefits_a : List (List Char)
  count_a : ℕ
  benefits_b : List (List Char)
  count_b : ℕ
  common_benefits : Finset (List Char)
  unique_to_a : Finset (List Char)
  unique_to_b : Finset (List Char)
  analysis : List Char
deriving DecidableEq

/-- `_analyze_benefits` (comparison.py lines 210-219). -/
def analyze_benefits (common : Finset (List Char)) : List Char :=
  if common.Nonempty then
    "Both products offer ".data ++ (toString common.card).data ++
      " similar benefit(s), making them comparable choices.".data
  else
    "Products offer different benefits and may serve different skincare goals.".data

/-- `_compare_benefits` (comparison.py lines 101-126). -/
def compare_benefits (pa pb : BProduct) : BenefitsComparison :=
  let ben_a := lowerSet pa.benefits
  let ben_b := lowerSet pb.benefits
  { benefits_a := pa.benefits
    count_a := pa.benefits.length
    benefits_b := pb.benefits
    count_b := pb.benefits.length
    common_benefits := ben_a ∩ ben_b
    unique_to_a := ben_a \ ben_b
    unique_to_b := ben_b \ ben_a
    analysis := analyze_benefits (ben_a ∩ ben_b) }

/-- Result shape of `_compare_price` (comparison.py lines 129-159). -/
structure PriceComparison where
  price_a : ℚ
  price_b : ℚ
  difference : ℚ
  percentage_difference : ℚ
  cheaper_option : Option Side
  analysis : List Char
deriving DecidableEq

/-- `_analyze_price` (comparison.py lines 222-229). -/
def analyze_price (price_a price_b : ℚ) (cheaper : Option Side) : List Char :=
  if price_a = price_b then
    "Both products are priced equally, so choice can be based on other factors.".data
  else if cheaper = some Side.a then
    "Product A offers a more budget-friendly option.".data
  else
    "Product B offers a more budget-friendly option.".data

/-- `_compare_price` (comparison.py lines 129-159): absolute difference,
percentage difference relative to `max` (0 if the max is not positive,
rounded to one decimal), and the strictly cheaper side if any. -/
def compare_price (pa pb : BProduct) : PriceComparison :=
  let price_a := extract_price pa.price
  let price_b := extract_price pb.price
  let difference := |price_a - price_b|
  let percentage_diff :=
    if max price_a price_b > 0 then difference / max price_a price_b * 100 else 0
  let cheaper : Option Side :=
    if price_a < price_b then some .a
    else if price_b < price_a then some .b
    else none
  { price_a := price_a
    price_b := price_b
    difference := difference
    percentage_difference := round1 percentage_diff
    cheaper_option := cheaper
    analysis := analyze_price price_a price_b cheaper }

/-- Result shape of `_compare_skin_types` (comparison.py lines 162-177). -/
structure SkinTypeComparison where
  product_a : List (List Char)
  product_b : List (List Char)
  common_skin_types : Finset (List Char)
  analysis : List Char
deriving DecidableEq

/-- `_compare_skin_types` (comparison.py lines 162-177). -/
def compare_skin_types (pa pb : BProduct) : SkinTypeComparison :=
  let common := lowerSet pa.skin_type ∩ lowerSet pb.skin_type
  { product_a := pa.skin_type
    product_b := pb.skin_type
    common_skin_types := common
    analysis :=
      if common.Nonempty then
        "Both products target ".data ++ (toString common.card).data ++
          " common skin type(s).".data
      else "Products target different skin types.".data }

/-- The score block of `_calculate_scores` (comparison.py lines 232-263). -/
structure Scores where
  product_a_score : ℕ
  product_b_score : ℕ
  winner : Winner
deriving DecidableEq

/-- `_calculate_scores` (comparison.py lines 232-263): one point per
dimension (ingredients count, benefits count, cheaper price), then the
winner by strict score comparison with an explicit tie. -/
def calculate_scores (ing : IngredientsComparison) (ben : BenefitsComparison)
    (price : PriceComparison) : Scores :=
  let s1 : ℕ × ℕ :=
    if ing.count_a > ing.count_b then (1, 0)
    else if ing.count_b > ing.count_a then (0, 1)
    else (0, 0)
  let s2 : ℕ × ℕ :=
    if ben.count_a > ben.count_b then (s1.1 + 1, s1.2)
    else if ben.count_b > ben.count_a then (s1.1, s1.2 + 1)
    else s1
  let s3 : ℕ × ℕ :=
    if price.cheaper_option = some Side.a then (s2.1 + 1, s2.2)
    else if price.cheaper_option = some Side.b then (s2.1, s2.2 + 1)
    else s2
  { product_a_score := s3.1
    product_b_score := s3.2
    winner :=
      if s3.1 > s3.2 then .a
      else if s3.2 > s3.1 then .b
      else .tie }

/-- The four dimensions of the comparison output. -/
structure Dimensions where
  ingredients : IngredientsComparison
  benefits : BenefitsComparison
  price : PriceComparison
  skin_type : SkinTypeComparison
deriving DecidableEq

/-- `_generate_comparison_summary` (comparison.py lines 266-277). -/
def comparison_summary (name_a name_b : List Char) (scores : Scores) : List Char :=
  if scores.winner = Winner.tie then
    name_a ++ " and ".data ++ name_b ++
      " are closely matched products. Your choice may depend on specific preferences and skin needs.".data
  else if scores.winner = Winner.a then
    name_a ++ " edges ahead in this comparison based on ingredients, benefits, and price factors.".data
  else
    name_b ++ " edges ahead in this comparison based on ingredients, benefits, and price factors.".data

/-- The full result of `compare_products` (comparison.py lines 10-68). -/
structure ComparisonResult where
  product_a_name : List Char
  product_b_name : List Char
  dimensions : Dimensions
  scores : Scores
  summary : List Char
deriving DecidableEq

/-- `compare_products` (comparison.py lines 10-68): compare every dimension,
score, and summarise. -/
def compare_products (pa pb : BProduct) : ComparisonResult :=
  let ingredients_comparison := compare_ingredients pa pb
  let benefits_comparison := compare_benefits pa pb
  let price_comparison := compare_price pa pb
  let skin_type_comparison := compare_skin_types pa pb
  let scores := calculate_scores ingredients_comparison benefits_comparison price_comparison
  { product_a_name := pa.name
    product_b_name := pb.name
    dimensions :=
      { ingredients := ingredients_comparison
        benefits := benefits_comparison
        price := price_comparison
        skin_type := skin_type_comparison }
    scores := scores
    summary := comparison_summary pa.name pb.name scores }

/-! ## Safety logic block (src/logic_blocks/safety.py) -/

/-- `pat` appears at the start of `s`. -/
def startsWith : List Char → List Char → Bool
  | [], _ => true
  | _ :: _, [] => false
  | p :: ps, c :: cs => p = c && startsWith ps cs

/-- Python's `pat in s` substring test. -/
def containsSub (pat : List Char) : List Char → Bool
  | [] => pat.isEmpty
  | c :: cs => startsWith pat (c :: cs) || containsSub pat cs

/-- `" ".join(l)` as used by the keyword scans. -/
def joinSpaces (l : List (List Char)) : List Char := List.intercalate [' '] l

/-- One entry of the parsed side-effect list. -/
structure EffectEntry where
  effect : List Char
  likelihood : List Char
deriving DecidableEq

/-- The keyword table of `_parse_side_effects` (safety.py lines 74-83), in
insertion order. -/
def effect_keywords : List (List Char × List Char) :=
  [("tingling".data, "Tingling sensation".data),
   ("redness".data, "Skin redness".data),
   ("irritation".data, "Skin irritation".data),
   ("dryness".data, "Dryness".data),
   ("peeling".data, "Skin peeling".data),
   ("sensitivity".data, "Increased sensitivity".data),
   ("burning".data, "Burning sensation".data),
   ("itching".data, "Itching".data)]

/-- `_parse_side_effects` (safety.py lines 66-101). -/
def parse_side_effects (side_effects : List Char) : List EffectEntry :=
  if side_effects.isEmpty then []
  else
    let low := lowerStr side_effects
    let effects :=
      (effect_keywords.filter (fun kv => containsSub kv.1 low)).map
        (fun kv =>
          ⟨kv.2, if containsSub "mild".data low then "possible".data else "common".data⟩)
    if effects.isEmpty then [⟨side_effects, "as described".data⟩] else effects

/-- `_generate_warnings` (safety.py lines 104-128). -/
def generate_warnings (ingredients : List (List Char)) (concentration : ℚ) :
    List (List Char) :=
  let w1 : List (List Char) :=
    if ingredients.any (fun ing => containsSub "vitamin c".data (lowerStr ing)) then
      if concentration > 15 then
        ["Avoid using with other Vitamin C products to prevent irritation.".data,
         "High concentration formula - start with less frequent application.".data]
      else ["Avoid using with other Vitamin C products to prevent irritation.".data]
    else []
  let joined := lowerStr (joinSpaces ingredients)
  let w2 :=
    if ["glycolic", "salicylic", "lactic", "hyaluronic"].any
        (fun acid => containsSub acid.data joined) then
      w1 ++ ["May increase sun sensitivity - use sunscreen during the day.".data]
    else w1
  let w3 :=
    if ingredients.any (fun ing =>
        containsSub "retinol".data (lowerStr ing) ||
          containsSub "retinoid".data (lowerStr ing)) then
      w2 ++ ["Not recommended for use during pregnancy.".data,
             "Avoid combining with other retinoids or exfoliating acids.".data]
    else w2
  if w3.isEmpty then ["Discontinue use if irritation occurs.".data] else w3

/-- `_generate_precautions` (safety.py lines 131-151); `product_name` and
`ingredients` are accepted by the source but unused. -/
def generate_precautions (side_effects : List Char) : List (List Char) :=
  (if containsSub "sensitive".data (lowerStr side_effects) then
    ["Those with sensitive skin should perform a patch test first.".data]
  else []) ++
    ["For external use only.".data,
     "Avoid contact with eyes.".data,
     "Keep out of reach of children.".data,
     "Store in a cool, dry place away from direct sunlight.".data]

/-- `_assess_severity` (safety.py lines 154-168). -/
def assess_severity (side_effects : List Char) : List Char :=
  if side_effects.isEmpty then "none_reported".data
  else
    let low := lowerStr side_effects
    if ["severe", "serious", "dangerous"].any (fun w => containsSub w.data low) then
      "high".data
    else if ["moderate", "significant"].any (fun w => containsSub w.data low) then
      "moderate".data
    else if ["mild", "slight", "minor"].any (fun w => containsSub w.data low) then
      "mild".data
    else "low".data

/-- `_should_recommend_patch_test` (safety.py lines 171-182), translated
branch for branch: the fallback path returns `True` unconditionally. -/
def should_recommend_patch_test (side_effects : List Char)
    (ingredients : List (List Char)) : Bool :=
  if containsSub "sensitive".data (lowerStr side_effects) then true
  else if ["vitamin c", "retinol", "glycolic", "salicylic", "aha", "bha"].any
      (fun a => containsSub a.data (lowerStr (joinSpaces ingredients))) then true
  else true

/-- `_should_consult_dermatologist` (safety.py lines 185-190); `ingredients`
is accepted by the source but unused. -/
def should_consult_dermatologist (side_effects : List Char) : Bool :=
  ["severe", "allergic", "reaction", "medical", "condition"].any
    (fun t => containsSub t.data (lowerStr side_effects))

/-- The `side_effects` sub-object of the safety block. -/
structure SideEffectsInfo where
  description : List Char
  severity : List Char
  details : List EffectEntry
deriving DecidableEq

/-- The content fragment returned by `generate_safety` (safety.py lines
10-63). -/
structure SafetyBlock where
  product_name : List Char
  side_effects : SideEffectsInfo
  warnings : List (List Char)
  precautions : List (List Char)
  patch_test_recommended : Bool
  consultation_advised : Bool
deriving DecidableEq

/-- `generate_safety` (safety.py lines 10-63). -/
def generate_safety (p : BProduct) : SafetyBlock :=
  { product_name := p.name
    side_effects :=
      { description := p.side_effects
        severity := assess_severity p.side_effects
        details := parse_side_effects p.side_effects }
    warnings := generate_warnings p.ingredients p.concentration
    precautions := generate_precautions p.side_effects
    patch_test_recommended := should_recommend_patch_test p.side_effects p.ingredients
    consultation_advised := should_consult_dermatologist p.side_effects }

/-! ## FAQ question selection (src/agents/faq_agent.py) -/

/-- The closed enumeration of question categories (config.py
`QUESTION_CATEGORIES`). -/
inductive QCategory where
  | informational
  | usage
  | safety
  | purchase
  | comparison
deriving DecidableEq

/-- `category_priority` of `FAQPageAgent._select_questions` (faq_agent.py
line 101). -/
def category_priority : List QCategory :=
  [.informational, .usage, .safety, .purchase, .comparison]

/-- `MIN_FAQ_ITEMS` (config.py line 71). -/
def MIN_FAQ_ITEMS : ℕ := 5

/-- One selected FAQ entry: a question with its category tag. -/
structure SelQ where
  question : List Char
  category : QCategory
deriving DecidableEq

/-- A categorized question dictionary; `none` models an absent key (the
source guards every access with `category in questions`). -/
def QMap := QCategory → Option (List (List Char))

/-- The first pass of `_select_questions` (faq_agent.py lines 103-109): for
each category in priority order that is present and non-empty, take its
first question. -/
def firstPass (qs : QMap) : List SelQ :=
  category_priority.filterMap (fun cat =>
    match qs cat with
    | some (q :: _) => some ⟨q, cat⟩
    | _ => none)

/-- The inner loop of the second pass (faq_agent.py lines 116-122): walk the
tail of one category's questions, appending while fewer than
`MIN_FAQ_ITEMS + 2` are selected so far (`n` is the running selection
count). -/
def backfillCat (cat : QCategory) : ℕ → List (List Char) → List SelQ
  | _, [] => []
  | n, q :: rest =>
    if MIN_FAQ_ITEMS + 2 ≤ n then []
    else ⟨q, cat⟩ :: backfillCat cat (n + 1) rest

/-- The outer loop of the second pass (faq_agent.py lines 112-122): stop as
soon as `MIN_FAQ_ITEMS` are selected, otherwise backfill from each present
category's tail (skipping its first question). -/
def backfill (qs : QMap) : ℕ → List QCategory → List SelQ
  | _, [] => []
  | n, cat :: cats =>
    if MIN_FAQ_ITEMS ≤ n then []
    else
      match qs cat with
      | some l =>
          let add := backfillCat cat n l.tail
          add ++ backfill qs (n + add.length) cats
      | none => backfill qs n cats

/-- `FAQPageAgent._select_questions` (faq_agent.py lines 89-124). -/
def select_questions (qs : QMap) : List SelQ :=
  let selected := firstPass qs
  selected ++ backfill qs selected.length category_priority

/-! ## Stage Sequencer (src/orchestrator.py)

`Orchestrator.run` executes seven stages in a fixed order inside a single
`try`; the first exception aborts the run, is caught once by the single
`except` at the top, and is returned to the caller as
`{"success": False, "error": str(e)}` — nothing but the exception's own
message.  Output files are written by `_write_outputs` only after all seven
stages succeed.  The stage bodies (LLM-backed agents) are modelled as
parameters `σ → Except (List Char) σ` over an abstract pipeline state `σ`;
an `Except.error` models the stage raising an exception with that message. -/

/-- The caller-visible result of `Orchestrator.run`: the success dictionary
with the three output paths, or the failure dictionary carrying `str(e)`. -/
inductive RunOutcome where
  | ok (outputs : List (List Char))
  | failed (error : List Char)
deriving DecidableEq

/-- A run's observable trace: the `"[n/7] Agent: ..."` stage headers printed
(one per started stage, in order), the output files written, and the
returned outcome. -/
structure RunTrace where
  executedStages : List (List Char)
  filesWritten : List (List Char)
  outcome : RunOutcome
deriving DecidableEq

/-- `OUTPUT_FILES` (config.py lines 77-81), written by
`Orchestrator._write_outputs` as a batch after stage 7. -/
def OUTPUT_FILES : List (List Char) :=
  ["faq.json".data, "product_page.json".data, "comparison_page.json".data]

/-- Run a list of named stages in order over state `s`: each stage's header
is recorded, the first error aborts with the bare message and no files
written, and only a fully successful run writes the three output files. -/
def runStages {σ : Type} : List (List Char × (σ → Except (List Char) σ)) → σ → RunTrace
  | [], _ => ⟨[], OUTPUT_FILES, .ok OUTPUT_FILES⟩
  | (name, f) :: rest, s =>
    match f s with
    | .error e => ⟨[name], [], .failed e⟩
    | .ok s2 =>
      let t := runStages rest s2
      ⟨name :: t.executedStages, t.filesWritten, t.outcome⟩

/-- The seven stage bodies of `Orchestrator.run` (orchestrator.py lines
93-134), abstracted over the pipeline state. -/
structure StageFns (σ : Type) where
  parse : σ → Except (List Char) σ
  generate_questions : σ → Except (List Char) σ
  prepare_content_blocks : σ → Except (List Char) σ
  load_templates : σ → Except (List Char) σ
  generate_faq : σ → Except (List Char) σ
  generate_product_page : σ → Except (List Char) σ
  generate_comparison : σ → Except (List Char) σ

/-- `Orchestrator.run` (orchestrator.py lines 80-158): the seven stages in
their fixed order with their agent names. -/
def orchestrator_run {σ : Type} (fs : StageFns σ) (s0 : σ) : RunTrace :=
  runStages
    [("ProductParserAgent".data, fs.parse),
     ("QuestionGeneratorAgent".data, fs.generate_questions),
     ("ContentLogicAgent".data, fs.prepare_content_blocks),
     ("TemplateEngineAgent".data, fs.load_templates),
     ("FAQPageAgent".data, fs.generate_faq),
     ("ProductPageAgent".data, fs.generate_product_page),
     ("ComparisonAgent".data, fs.generate_comparison)]
    s0

/-! ## Response Envelope Parser

Both `QuestionGeneratorAgent._parse_response` (question_generator.py lines
130-152) and `FAQPageAgent._parse_response` (faq_agent.py lines 191-206)
run the same envelope logic: `strip()`, remove an opening ```` ```json ````
or ```` ``` ```` fence and a closing ```` ``` ```` fence, then
`json.loads` the stripped remainder, turning `json.JSONDecodeError` into a
raised `ValueError` (the spec's `ParseError`).  `json.loads` is modelled by
an executable RFC-8259 parser over `List Char`. -/

/-- JSON insignificant whitespace (RFC 8259: space, tab, newline, return). -/
def isJsonWs (c : Char) : Bool := c = ' ' || c = '\t' || c = '\n' || c = '\r'

/-- Skip leading JSON whitespace. -/
def skipWs (cs : List Char) : List Char := cs.dropWhile isJsonWs

/-- A decoded JSON value. -/
inductive Json where
  | null
  | bool (b : Bool)
  | num (q : ℚ)
  | str (s : List Char)
  | arr (elems : List Json)
  | obj (members : List (List Char × Json))

/-- Decoded single-character string escapes. -/
def escChar : Char → Option Char
  | '"' => some '"'
  | '\\' => some '\\'
  | '/' => some '/'
  | 'b' => some '\x08'
  | 'f' => some '\x0c'
  | 'n' => some '\n'
  | 'r' => some '\r'
  | 't' => some '\t'
  | _ => none

/-- Value of one hexadecimal digit. -/
def hexVal (c : Char) : Option Nat :=
  if c.isDigit then some (c.toNat - 48)
  else if 'a' ≤ c && c ≤ 'f' then some (c.toNat - 87)
  else if 'A' ≤ c && c ≤ 'F' then some (c.toNat - 55)
  else none

/-- Scan a JSON string body after its opening quote, up to and including the
closing quote; returns the decoded content and the unconsumed remainder. -/
def scanString : ℕ → List Char → Option (List Char × List Char)
  | 0, _ => none
  | _ + 1, [] => none
  | fuel + 1, c :: cs =>
    if c = '"' then some ([], cs)
    else if c = '\\' then
      match cs with
      | [] => none
      | e :: cs2 =>
        if e = 'u' then
          match cs2 with
          | h1 :: h2 :: h3 :: h4 :: cs3 =>
            match hexVal h1, hexVal h2, hexVal h3, hexVal h4 with
            | some a, some b, some c2, some d =>
              match scanString fuel cs3 with
              | some (s, r) =>
                  some (Char.ofNat (((a * 16 + b) * 16 + c2) * 16 + d) :: s, r)
              | none => none
            | _, _, _, _ => none
          | _ => none
        else
          match escChar e with
          | some d =>
            match scanString fuel cs2 with
            | some (s, r) => some (d :: s, r)
            | none => none
          | none => none
    else if c.toNat < 32 then none
    else
      match scanString fuel cs with
      | some (s, r) => some (c :: s, r)
      | none => none

/-- Scan an optional JSON fraction part `.digits`; returns the consumed
characters (possibly `[]`) and the remainder. -/
def scanFrac : List Char → List Char × List Char
  | '.' :: r =>
    let q := spanDigits r
    if q.1.isEmpty then ([], '.' :: r) else ('.' :: q.1, q.2)
  | cs => ([], cs)

/-- Scan an optional JSON exponent part `[eE][+-]?digits`; returns the
consumed characters (possibly `[]`) and the remainder. -/
def scanExpPart : List Char → List Char × List Char
  | [] => ([], [])
  | c :: r =>
    if c = 'e' || c = 'E' then
      match r with
      | [] => ([], c :: r)
      | s :: r2 =>
        if s = '+' || s = '-' then
          let q := spanDigits r2
          if q.1.isEmpty then ([], c :: r) else (c :: s :: q.1, q.2)
        else
          let q := spanDigits r
          if q.1.isEmpty then ([], c :: r) else (c :: q.1, q.2)
    else ([], c :: r)

/-- Scan one JSON number token (`-?(0|[1-9]digits)(.digits)?([eE][+-]?digits)?`);
returns the token's characters and the remainder. -/
def scanNumber (cs : List Char) : Option (List Char × List Char) :=
  let s : List Char × List Char :=
    if cs.head? = some '-' then (['-'], cs.tail) else ([], cs)
  let p := spanDigits s.2
  if p.1.isEmpty then none
  else if 1 < p.1.length && p.1.head? = some '0' then none
  else
    let f := scanFrac p.2
    let e := scanExpPart f.2
    some (s.1 ++ p.1 ++ f.1 ++ e.1, e.2)

/-- The exact rational value of a scanned JSON number token. -/
def numOfToken (tok : List Char) : ℚ :=
  let s : ℚ × List Char :=
    if tok.head? = some '-' then (-1, tok.tail) else (1, tok)
  let p := spanDigits s.2
  let f := scanFrac p.2
  let mant := decToRat p.1 f.1.tail
  let e := scanExpPart f.2
  let expVal : ℤ :=
    match e.1 with
    | _ :: '-' :: ds => -(digitsToNat ds : ℤ)
    | _ :: '+' :: ds => (digitsToNat ds : ℤ)
    | _ :: ds => (digitsToNat ds : ℤ)
    | [] => 0
  s.1 * mant * (10 : ℚ) ^ expVal

/-- `lit` consumed from the front of `cs`, or failure. -/
def expectLit (lit cs : List Char) : Option (List Char) :=
  if startsWith lit cs then some (cs.drop lit.length) else none

/-- What the recursive descent is asked to parse: one value, the elements of
an array after its `[`, or the members of an object positioned at a key. -/
inductive PReq where
  | val
  | elems
  | mems

/-- The corresponding results. -/
inductive PRes where
  | v (j : Json)
  | vs (l : List Json)
  | ms (l : List (List Char × Json))

/-- Fuelled recursive-descent JSON parser.  `.val` expects a value at the
head of the input (no leading whitespace); `.elems` expects the remainder
of a non-empty array (whitespace already skipped); `.mems` expects object
members starting at a key's quote. -/
def parseAux : ℕ → PReq → List Char → Option (PRes × List Char)
  | 0, _, _ => none
  | fuel + 1, .val, cs =>
    match cs with
    | [] => none
    | c :: rest =>
      if c = '"' then
        match scanString (fuel + 1) rest with
        | some (s, r) => some (.v (.str s), r)
        | none => none
      else if c = '[' then
        match skipWs rest with
        | ']' :: r => some (.v (.arr []), r)
        | cs2 =>
          match parseAux fuel .elems cs2 with
          | some (.vs l, r) => some (.v (.arr l), r)
          | _ => none
      else if c = '\x7b' then
        match skipWs rest with
        | '\x7d' :: r => some (.v (.obj []), r)
        | cs2 =>
          match parseAux fuel .mems cs2 with
          | some (.ms l, r) => some (.v (.obj l), r)
          | _ => none
      else if c = 't' then
        match expectLit "rue".data rest with
        | some r => some (.v (.bool true), r)
        | none => none
      else if c = 'f' then
        match expectLit "alse".data rest with
        | some r => some (.v (.bool false), r)
        | none => none
      else if c = 'n' then
        match expectLit "ull".data rest with
        | some r => some (.v .null, r)
        | none => none
      else if c = '-' || c.isDigit then
        match scanNumber (c :: rest) with
        | some (tok, r) => some (.v (.num (numOfToken tok)), r)
        | none => none
      else none
  | fuel + 1, .elems, cs =>
    match parseAux fuel .val cs with
    | some (.v j, r1) =>
      match skipWs r1 with
      | ',' :: r2 =>
        match parseAux fuel .elems (skipWs r2) with
        | some (.vs l, r3) => some (.vs (j :: l), r3)
        | _ => none
      | ']' :: r2 => some (.vs [j], r2)
      | _ => none
    | _ => none
  | fuel + 1, .mems, cs =>
    match cs with
    | '"' :: cs1 =>
      match scanString (fuel + 1) cs1 with
      | some (k, r1) =>
        match skipWs r1 with
        | ':' :: r2 =>
          match parseAux fuel .val (skipWs r2) with
          | some (.v j, r3) =>
            match skipWs r3 with
            | ',' :: r4 =>
              match parseAux fuel .mems (skipWs r4) with
              | some (.ms l, r5) => some (.ms ((k, j) :: l), r5)
              | _ => none
            | '\x7d' :: r4 => some (.ms [(k, j)], r4)
            | _ => none
          | _ => none
        | _ => none
      | none => none
    | _ => none

/-- Model of `json.loads`: parse one JSON value surrounded only by
whitespace; anything else is a decode error (`none`). -/
def jsonDecode (cs : List Char) : Option Json :=
  match parseAux (2 * cs.length + 2) .val (skipWs cs) with
  | some (.v j, rest) => if (skipWs rest).isEmpty then some j else none
  | _ => none

/-- The closing/opening ```` ``` ```` fence marker. -/
def fence3 : List Char := [btick, btick, btick]

/-- The opening ```` ```json ```` fence marker. -/
def fenceJson : List Char := [btick, btick, btick, 'j', 's', 'o', 'n']

/-- Python's `l[:-n]`. -/
def dropLastN (n : ℕ) (l : List Char) : List Char := (l.reverse.drop n).reverse

/-- `pat` appears at the end of `l`. -/
def endsWith (pat l : List Char) : Bool := startsWith pat.reverse l.reverse

/-- The fence-stripping steps of `_parse_response`: drop a leading
```` ```json ````, then a leading ```` ``` ````, then a trailing
```` ``` ```` (question_generator.py lines 134-140, faq_agent.py lines
194-200). -/
def dropOpenJson (cs : List Char) : List Char :=
  if startsWith fenceJson cs then cs.drop 7 else cs

/-- `if cleaned.startswith("<fence>"): cleaned = cleaned[3:]`. -/
def dropOpen3 (cs : List Char) : List Char :=
  if startsWith fence3 cs then cs.drop 3 else cs

/-- `if cleaned.endswith("<fence>"): cleaned = cleaned[:-3]`. -/
def dropClose3 (cs : List Char) : List Char :=
  if endsWith fence3 cs then dropLastN 3 cs else cs

/-- The three fence-stripping steps in source order. -/
def cleanFences (cs : List Char) : List Char :=
  dropClose3 (dropOpen3 (dropOpenJson cs))

/-- `_parse_response`'s envelope parse (question_generator.py lines 130-152,
faq_agent.py lines 191-206): strip, remove fences, strip again, decode;
a decode failure raises `ValueError("Failed to parse LLM response ...")`,
the spec's `ParseError`. -/
def parse_response (response : List Char) : Except (List Char) Json :=
  match jsonDecode (pyStrip (cleanFences (pyStrip response))) with
  | some v => .ok v
  | none => .error "Failed to parse LLM response as JSON".data

/-- A JSON text wrapped in an opening `json`-tagged code fence and a closing
fence, the shape the claim quantifies over. -/
def wrapJsonFence (t : List Char) : List Char :=
  fenceJson ++ '\n' :: (t ++ '\n' :: fence3)

/-! ## Concrete instances and claim-statement predicates -/

/-- A product with price 699 (the spec's worked example), with one
ingredient and one benefit so the two count dimensions tie. -/
def cmpA : BProduct :=
  { name := "GlowBoost Vitamin C Serum".data
    ingredients := ["Vitamin C".data]
    benefits := ["Brightening".data]
    skin_type := ["Oily".data]
    concentration := 10
    price := .num 699
    side_effects := "".data }

/-- A product with price 599, otherwise matching `cmpA`'s counts. -/
def cmpB : BProduct :=
  { name := "RadiantGlow Serum".data
    ingredients := ["Niacinamide".data]
    benefits := ["Brightening".data]
    skin_type := ["Oily".data]
    concentration := 10
    price := .num 599
    side_effects := "".data }

/-- The repository's own sample input (input shape of `_normalize`). -/
def rawSample : RawProduct :=
  { product_name := "GlowBoost Vitamin C Serum".data
    concentration := .str "10% Vitamin C".data
    skin_type := .arr ["Oily".data, "Combination".data]
    key_ingredients := .arr ["Vitamin C".data, "Hyaluronic Acid".data]
    benefits := .arr ["Brightening".data, "Fades dark spots".data]
    how_to_use := "Apply 2-3 drops in the morning".data
    side_effects := "Mild tingling for sensitive skin".data
    price := .str "₹699".data }

/-- A stage body that always succeeds, leaving the state unchanged. -/
def okStage : Nat → Except (List Char) Nat := fun n => .ok n

/-- A stage body that raises with message `msg`. -/
def errStage (msg : List Char) : Nat → Except (List Char) Nat := fun _ => .error msg

/-- Stage behaviours where stage 2 (question generation) raises `"boom"`. -/
def fsFail2 : StageFns Nat :=
  ⟨okStage, errStage "boom".data, okStage, okStage, okStage, okStage, okStage⟩

/-- Stage behaviours where stage 3 raises the same `"boom"`. -/
def fsFail3 : StageFns Nat :=
  ⟨okStage, okStage, errStage "boom".data, okStage, okStage, okStage, okStage⟩

/-- Stage behaviours where stage 5 raises `"quota exceeded"`. -/
def fsFail5 : StageFns Nat :=
  ⟨okStage, okStage, okStage, okStage, errStage "quota exceeded".data, okStage, okStage⟩

/-- Stage behaviours where stage 6 raises the same `"quota exceeded"`. -/
def fsFail6 : StageFns Nat :=
  ⟨okStage, okStage, okStage, okStage, okStage, errStage "quota exceeded".data, okStage⟩

/-- The orchestrator's stage list (names with bodies), in pipeline order. -/
def orchestrator_stages {σ : Type} (fs : StageFns σ) :
    List (List Char × (σ → Except (List Char) σ)) :=
  [("ProductParserAgent".data, fs.parse),
   ("QuestionGeneratorAgent".data, fs.generate_questions),
   ("ContentLogicAgent".data, fs.prepare_content_blocks),
   ("TemplateEngineAgent".data, fs.load_templates),
   ("FAQPageAgent".data, fs.generate_faq),
   ("ProductPageAgent".data, fs.generate_product_page),
   ("ComparisonAgent".data, fs.generate_comparison)]

/-- State threading of a stage list that succeeds throughout: `some` of the
final state, `none` if any stage fails.  Used to say "the stages before the
failing one all succeed". -/
def chainOk {σ : Type} : List (List Char × (σ → Except (List Char) σ)) → σ → Option σ
  | [], s => some s
  | (_, f) :: rest, s =>
    match f s with
    | .ok s2 => chainOk rest s2
    | .error _ => none

/-- What the claim asserts of the price dimension of a comparison, phrased
from the spec's words: absolute difference; percentage relative to the
larger price (zero exactly when both are zero), rounded to one decimal as
reported; strictly-cheaper side wins, ties have no winner. -/
def PriceDimSpec (pa pb : BProduct) : Prop :=
  let a := extract_price pa.price
  let b := extract_price pb.price
  let pc := (compare_products pa pb).dimensions.price
  pc.price_a = a ∧ pc.price_b = b ∧
  pc.difference = |a - b| ∧
  pc.percentage_difference =
    (if a = 0 ∧ b = 0 then 0 else round1 (|a - b| / max a b * 100)) ∧
  (pc.cheaper_option = some Side.a ↔ a < b) ∧
  (pc.cheaper_option = some Side.b ↔ b < a) ∧
  (pc.cheaper_option = none ↔ a = b)

/-- What the claim asserts of FAQ question selection on a fully populated
question set: the selection is exactly one question per category, in
priority order, each the first question of its category; its size is the
minimum; and (in general) backfilled entries only ever come from a
category's tail, skipping the first question. -/
def SelectionSpec (qs : QMap) : Prop :=
  ((select_questions qs).map SelQ.category = category_priority ∧
   (∀ cat ∈ category_priority, ∃ e ∈ select_questions qs,
      e.category = cat ∧ ∃ rest, qs cat = some (e.question :: rest)) ∧
   (select_questions qs).length = MIN_FAQ_ITEMS) ∧
  (∀ n cats e, e ∈ backfill qs n cats →
    ∃ l, qs e.category = some l ∧ e.question ∈ l.tail)

/-- A fully populated question dictionary (two questions per category). -/
def qsSample : QMap := fun cat =>
  match cat with
  | .informational => some ["What is it?".data, "What is in it?".data]
  | .usage => some ["How do I apply it?".data, "When should I use it?".data]
  | .safety => some ["Any side effects?".data, "Is it safe?".data]
  | .purchase => some ["How much does it cost?".data, "Where can I buy it?".data]
  | .comparison => some ["How does it compare?".data, "Is it better?".data]

/-- The last character of a list, via its reverse. -/
def lastChar (l : List Char) : Option Char := l.reverse.head?

/-- `rest` is obtained from `cs` by consuming some (possibly empty) front. -/
def Peels (cs rest : List Char) : Prop := ∃ pre, cs = pre ++ rest

/-- `rest` is obtained from `cs` by consuming a non-empty front whose last
character is `c`. -/
def ConsumedEnd (cs rest : List Char) (c : Char) : Prop :=
  ∃ pre, cs = pre ++ rest ∧ pre ≠ [] ∧ lastChar pre = some c

/-- The characters a successfully parsed JSON value can end with: a digit
(numbers), `"` (strings), `]` (arrays), `\x7d` (objects), `l` (`null`), or
`e` (`true`/`false`). -/
def goodEnd (c : Char) : Bool :=
  c.isDigit || c = '"' || c = ']' || c = '\x7d' || c = 'l' || c = 'e'

/-! ## Helper lemmas -/

theorem round1_zero : round1 0 = 0 := by
  norm_num [round1, roundHalfEven]

theorem cheaper_eq_a_iff (pa pb : BProduct) :
    (compare_price pa pb).cheaper_option = some Side.a ↔
      extract_price pa.price < extract_price pb.price := by
  dsimp [compare_price]
  split_ifs with h1 h2 <;> simp [h1]

theorem cheaper_eq_b_iff (pa pb : BProduct) :
    (compare_price pa pb).cheaper_option = some Side.b ↔
      extract_price pb.price < extract_price pa.price := by
  dsimp [compare_price]
  split_ifs with h1 h2
  · simp [h1.asymm]
  · simp [h2]
  · simp [h2]

theorem cheaper_eq_none_iff (pa pb : BProduct) :
    (compare_price pa pb).cheaper_option = none ↔
      extract_price pa.price = extract_price pb.price := by
  dsimp [compare_price]
  split_ifs with h1 h2
  · simp [h1.ne]
  · simp [h2.ne']
  · simp [le_antisymm (not_lt.mp h2) (not_lt.mp h1)]

theorem searchNumber_nodigit (s : List Char) (h : ∀ c ∈ s, c.isDigit = false) :
    searchNumber s = none := by
  induction s with
  | nil => rfl
  | cons c cs ih =>
      have hc := h c (by simp)
      simp only [searchNumber, hc, Bool.false_eq_true, if_false]
      exact ih (fun x hx => h x (by simp [hx]))

/-! ## Claim theorems -/

/-- **C10**: for every product record (any `side_effects` text and any
`ingredients` list), the safety block returned by `generate_safety` has
`patch_test_recommended = true`: the patch-test rule's final path always
returns `True`, so the flag never evaluates to false. -/
theorem patch_test_always_recommended (p : BProduct) :
    (generate_safety p).patch_test_recommended = true := by
  dsimp [generate_safety, should_recommend_patch_test]
  split_ifs <;> rfl

theorem calc_scores_a (ing : IngredientsComparison) (ben : BenefitsComparison)
    (pc : PriceComparison) :
    (calculate_scores ing ben pc).product_a_score =
      ((if ing.count_b < ing.count_a then 1 else 0) +
       (if ben.count_b < ben.count_a then 1 else 0) +
       (if pc.cheaper_option = some Side.a then 1 else 0)) := by
  dsimp [calculate_scores]
  split_ifs <;> simp_all

theorem calc_scores_b (ing : IngredientsComparison) (ben : BenefitsComparison)
    (pc : PriceComparison) :
    (calculate_scores ing ben pc).product_b_score =
      ((if ing.count_a < ing.count_b then 1 else 0) +
       (if ben.count_a < ben.count_b then 1 else 0) +
       (if pc.cheaper_option = some Side.b then 1 else 0)) := by
  dsimp [calculate_scores]
  split_ifs <;> simp_all <;> omega

theorem winner_tag_iff (x y : ℕ) :
    (((if y < x then Winner.a else if x < y then Winner.b else Winner.tie) = Winner.a) ↔ y < x) ∧
    (((if y < x then Winner.a else if x < y then Winner.b else Winner.tie) = Winner.b) ↔ x < y) ∧
    (((if y < x then Winner.a else if x < y then Winner.b else Winner.tie) = Winner.tie) ↔ x = y) := by
  split_ifs with h1 h2 <;> simp_all <;> omega

theorem calc_scores_winner (ing : IngredientsComparison) (ben : BenefitsComparison)
    (pc : PriceComparison) :
    ((calculate_scores ing ben pc).winner = Winner.a ↔
      (calculate_scores ing ben pc).product_b_score <
        (calculate_scores ing ben pc).product_a_score) ∧
    ((calculate_scores ing ben pc).winner = Winner.b ↔
      (calculate_scores ing ben pc).product_a_score <
        (calculate_scores ing ben pc).product_b_score) ∧
    ((calculate_scores ing ben pc).winner = Winner.tie ↔
      (calculate_scores ing ben pc).product_a_score =
        (calculate_scores ing ben pc).product_b_score) :=
  winner_tag_iff (calculate_scores ing ben pc).product_a_score
    (calculate_scores ing ben pc).product_b_score

/-- **C3**: the Comparison Engine awards exactly one point per dimension
among ingredients, benefits, and price — to the side with the strictly
larger ingredient count, the strictly larger benefit count, and the
strictly lower extracted price respectively, a tie in a dimension awarding
no point — and the winner tag is the side with the strictly higher total,
equal totals giving the explicit `tie` tag. -/
theorem scoring_one_point_per_dimension (pa pb : BProduct) :
    (compare_products pa pb).scores.product_a_score =
        ((if pb.ingredients.length < pa.ingredients.length then 1 else 0) +
         (if pb.benefits.length < pa.benefits.length then 1 else 0) +
         (if extract_price pa.price < extract_price pb.price then 1 else 0)) ∧
    (compare_products pa pb).scores.product_b_score =
        ((if pa.ingredients.length < pb.ingredients.length then 1 else 0) +
         (if pa.benefits.length < pb.benefits.length then 1 else 0) +
         (if extract_price pb.price < extract_price pa.price then 1 else 0)) ∧
    ((compare_products pa pb).scores.winner = Winner.a ↔
      (compare_products pa pb).scores.product_b_score <
        (compare_products pa pb).scores.product_a_score) ∧
    ((compare_products pa pb).scores.winner = Winner.b ↔
      (compare_products pa pb).scores.product_a_score <
        (compare_products pa pb).scores.product_b_score) ∧
    ((compare_products pa pb).scores.winner = Winner.tie ↔
      (compare_products pa pb).scores.product_a_score =
        (compare_products pa pb).scores.product_b_score) := by
  have hs : (compare_products pa pb).scores =
      calculate_scores (compare_ingredients pa pb) (compare_benefits pa pb)
        (compare_price pa pb) := rfl
  have hia : (compare_ingredients pa pb).count_a = pa.ingredients.length := rfl
  have hib : (compare_ingredients pa pb).count_b = pb.ingredients.length := rfl
  have hba : (compare_benefits pa pb).count_a = pa.benefits.length := rfl
  have hbb : (compare_benefits pa pb).count_b = pb.benefits.length := rfl
  refine ⟨?_, ?_, ?_, ?_, ?_⟩
  · rw [hs, calc_scores_a, hia, hib, hba, hbb]
    simp only [cheaper_eq_a_iff]
  · rw [hs, calc_scores_b, hia, hib, hba, hbb]
    simp only [cheaper_eq_b_iff]
  · rw [hs]
    exact (calc_scores_winner _ _ _).1
  · rw [hs]
    exact (calc_scores_winner _ _ _).2.1
  · rw [hs]
    exact (calc_scores_winner _ _ _).2.2

/-- **C2**: for every pair of product records (with the non-negative prices
every record the pipeline builds carries), the price dimension reports the
absolute difference of the two extracted prices, the percentage difference
relative to the larger of the two (0 when both are 0, rounded to one
decimal as the source reports it), the strictly cheaper side as
`cheaper_option`, and no winner on equal prices. -/
theorem price_dimension_spec (pa pb : BProduct)
    (ha : 0 ≤ extract_price pa.price) (hb : 0 ≤ extract_price pb.price) :
    PriceDimSpec pa pb := by
  have hd : (compare_products pa pb).dimensions.price = compare_price pa pb := rfl
  dsimp only [PriceDimSpec]
  rw [hd]
  refine ⟨rfl, rfl, rfl, ?_, cheaper_eq_a_iff pa pb, cheaper_eq_b_iff pa pb,
    cheaper_eq_none_iff pa pb⟩
  dsimp [compare_price]
  by_cases hz : extract_price pa.price = 0 ∧ extract_price pb.price = 0
  · rw [if_pos hz, hz.1, hz.2]
    simp [round1_zero]
  · rw [if_neg hz]
    have hpos : 0 < max (extract_price pa.price) (extract_price pb.price) := by
      rcases not_and_or.mp hz with h | h
      · exact lt_max_iff.mpr (Or.inl (lt_of_le_of_ne ha (Ne.symm h)))
      · exact lt_max_iff.mpr (Or.inr (lt_of_le_of_ne hb (Ne.symm h)))
    rw [if_pos hpos]

/-- Witness for C2 at the spec's own 699/599 example. -/
theorem price_dimension_spec_witness :
    (0 ≤ extract_price cmpA.price ∧ 0 ≤ extract_price cmpB.price) ∧
      PriceDimSpec cmpA cmpB :=
  ⟨⟨by norm_num [cmpA, extract_price], by norm_num [cmpB, extract_price]⟩,
   price_dimension_spec cmpA cmpB (by norm_num [cmpA, extract_price])
     (by norm_num [cmpB, extract_price])⟩

/-- **C7 counterexample**: the claim's example `"₹1,299" → 1299.0` fails for
concentration extraction: `_extract_concentration` does not strip commas or
currency symbols, so it reads `1.0`. -/
theorem concentration_extraction_counterexample :
    extract_concentration (.str "₹1,299".data) = 1 ∧
    extract_concentration (.str "₹1,299".data) ≠ 1299 := by
  have h : extract_concentration (.str "₹1,299".data) =
      ((1 : ℕ) : ℚ) / ((10 : ℕ) : ℚ) ^ 0 := rfl
  rw [h]
  norm_num

/-- **C7 (amended)**: numeric input passes through unchanged for both
extractions; price extraction strips currency symbols, commas, and
whitespace before reading the first numeric substring (`"₹1,299"` → 1299.0,
`"$29.99"` → 29.99), while concentration extraction reads the first numeric
substring of the unmodified string (`"15.5% Active"` → 15.5, but
`"₹1,299"` → 1.0); an empty or digit-free string yields 0.0 for both. -/
theorem numeric_extraction_amended :
    (∀ q : ℚ, extract_concentration (.num q) = q ∧ extract_price (.num q) = q) ∧
    extract_price (.str "₹1,299".data) = 1299 ∧
    extract_price (.str "$29.99".data) = 2999 / 100 ∧
    extract_concentration (.str "15.5% Active".data) = 31 / 2 ∧
    extract_price (.str "15.5% Active".data) = 31 / 2 ∧
    extract_concentration (.str "₹1,299".data) = 1 ∧
    extract_concentration (.str "".data) = 0 ∧
    extract_price (.str "".data) = 0 ∧
    (∀ s : List Char, (∀ c ∈ s, c.isDigit = false) →
      extract_concentration (.str s) = 0 ∧ extract_price (.str s) = 0) := by
  refine ⟨fun q => ⟨rfl, rfl⟩, ?_, ?_, ?_, ?_, ?_, rfl, rfl, ?_⟩
  · have h : extract_price (.str "₹1,299".data) =
        ((1299 : ℕ) : ℚ) / ((10 : ℕ) : ℚ) ^ 0 := rfl
    rw [h]; norm_num
  · have h : extract_price (.str "$29.99".data) =
        ((2999 : ℕ) : ℚ) / ((10 : ℕ) : ℚ) ^ 2 := rfl
    rw [h]; norm_num
  · have h : extract_concentration (.str "15.5% Active".data) =
        ((155 : ℕ) : ℚ) / ((10 : ℕ) : ℚ) ^ 1 := rfl
    rw [h]; norm_num
  · have h : extract_price (.str "15.5% Active".data) =
        ((155 : ℕ) : ℚ) / ((10 : ℕ) : ℚ) ^ 1 := rfl
    rw [h]; norm_num
  · have h : extract_concentration (.str "₹1,299".data) =
        ((1 : ℕ) : ℚ) / ((10 : ℕ) : ℚ) ^ 0 := rfl
    rw [h]; norm_num
  · intro s hs
    constructor
    · dsimp [extract_concentration]
      rw [searchNumber_nodigit s hs]
      rfl
    · dsimp [extract_price]
      rw [searchNumber_nodigit _ (fun c hc => hs c (List.mem_of_mem_filter hc))]
      rfl

/-- Witness for the digit-free clause of the amended C7 at `"abc"`. -/
theorem numeric_extraction_amended_witness :
    (∀ c ∈ "abc".data, c.isDigit = false) ∧
      (extract_concentration (.str "abc".data) = 0 ∧
       extract_price (.str "abc".data) = 0) :=
  ⟨by decide, numeric_extraction_amended.2.2.2.2.2.2.2.2 "abc".data (by decide)⟩

/-- **C8**: normalizing the same raw input with two different random
suffixes (the model of two runs of `uuid.uuid4()`) yields records that
differ in `id` but agree on every other field: the non-`id` content is a
deterministic function of the input. -/
theorem renormalize_id_differs (raw : RawProduct) (s1 s2 : List Char)
    (h : s1 ≠ s2) :
    (normalize s1 raw).id ≠ (normalize s2 raw).id ∧
    contentOf (normalize s1 raw) = contentOf (normalize s2 raw) := by
  refine ⟨?_, rfl⟩
  dsimp [normalize, generate_id]
  intro hid
  exact h (List.cons_injective (List.append_cancel_left hid))

/-- Witness for C8 at the repository's sample input with two concrete
suffixes. -/
theorem renormalize_id_differs_witness :
    "aaaaaaaa".data ≠ "bbbbbbbb".data ∧
    ((normalize "aaaaaaaa".data rawSample).id ≠
        (normalize "bbbbbbbb".data rawSample).id ∧
      contentOf (normalize "aaaaaaaa".data rawSample) =
        contentOf (normalize "bbbbbbbb".data rawSample)) :=
  ⟨by decide, renormalize_id_differs rawSample _ _ (by decide)⟩

theorem c1_price_eval :
    (compare_products cmpA cmpB).dimensions.price.difference = 100 ∧
    (compare_products cmpA cmpB).dimensions.price.percentage_difference = 143 / 10 ∧
    (compare_products cmpA cmpB).dimensions.price.cheaper_option = some Side.b := by
  refine ⟨?_, ?_, ?_⟩
  · have h : (compare_products cmpA cmpB).dimensions.price.difference =
        |(699 : ℚ) - 599| := rfl
    rw [h]; norm_num
  · have h : (compare_products cmpA cmpB).dimensions.price.percentage_difference =
        round1 (if 0 < max (699 : ℚ) 599 then |(699 : ℚ) - 599| / max 699 599 * 100
          else 0) := rfl
    rw [h]
    have hm : max (699 : ℚ) 599 = 699 := by norm_num [max_def]
    rw [hm]
    norm_num [round1, roundHalfEven]
  · have h : (compare_products cmpA cmpB).dimensions.price.cheaper_option =
        (if (699 : ℚ) < 599 then some Side.a
          else if (599 : ℚ) < 699 then some Side.b else none) := rfl
    rw [h]; norm_num

/-- **C1 counterexample**: on prices 699 vs 599 the reported
`percentage_difference` is 14.3 (the difference relative to the *larger*
price 699), not ≈16.7 as the claim states — not even within a half-unit of
the last shown digit. -/
theorem price_percentage_counterexample :
    (compare_products cmpA cmpB).dimensions.price.percentage_difference = 143 / 10 ∧
    (compare_products cmpA cmpB).dimensions.price.percentage_difference ≠ 167 / 10 ∧
    ¬(|(compare_products cmpA cmpB).dimensions.price.percentage_difference - 167 / 10|
        < 1 / 20) := by
  obtain ⟨-, h, -⟩ := c1_price_eval
  refine ⟨h, ?_, ?_⟩
  · rw [h]; norm_num
  · rw [h, show |(143 : ℚ) / 10 - 167 / 10| = 24 / 10 from by
      rw [abs_of_nonpos (by norm_num)]; norm_num]
    norm_num

/-- **C1 (amended)**: on extracted prices 699 (A) and 599 (B) with the other
two dimensions tied, the price dimension reports `difference = 100` and
`percentage_difference = 14.3` (relative to the larger price 699), names
product B as the cheaper option, and the price-dimension scoring point goes
to product B (scores 0-1, winner `product_b`). -/
theorem price_example_amended :
    (compare_products cmpA cmpB).dimensions.price.difference = 100 ∧
    (compare_products cmpA cmpB).dimensions.price.percentage_difference = 143 / 10 ∧
    (compare_products cmpA cmpB).dimensions.price.cheaper_option = some Side.b ∧
    (compare_products cmpA cmpB).scores.product_a_score = 0 ∧
    (compare_products cmpA cmpB).scores.product_b_score = 1 ∧
    (compare_products cmpA cmpB).scores.winner = Winner.b := by
  obtain ⟨h1, h2, h3⟩ := c1_price_eval
  have hs : (compare_products cmpA cmpB).scores =
      calculate_scores (compare_ingredients cmpA cmpB) (compare_benefits cmpA cmpB)
        (compare_price cmpA cmpB) := rfl
  have hch : (compare_price cmpA cmpB).cheaper_option = some Side.b := h3
  refine ⟨h1, h2, h3, ?_, ?_, ?_⟩
  · rw [hs, calc_scores_a, hch]
    decide
  · rw [hs, calc_scores_b, hch]
    decide
  · rw [hs]
    refine (calc_scores_winner _ _ _).2.1.mpr ?_
    rw [calc_scores_a, calc_scores_b, hch]
    decide

theorem runStages_cons_ok (σ : Type) (n : List Char)
    (g : σ → Except (List Char) σ)
    (rest : List (List Char × (σ → Except (List Char) σ))) (s s2 : σ)
    (hg : g s = .ok s2) :
    runStages ((n, g) :: rest) s =
      ⟨n :: (runStages rest s2).executedStages, (runStages rest s2).filesWritten,
        (runStages rest s2).outcome⟩ := by
  simp [runStages, hg]

theorem runStages_cons_err (σ : Type) (n : List Char)
    (g : σ → Except (List Char) σ)
    (rest : List (List Char × (σ → Except (List Char) σ))) (s : σ)
    (e : List Char) (hg : g s = .error e) :
    runStages ((n, g) :: rest) s = ⟨[n], [], .failed e⟩ := by
  simp [runStages, hg]

theorem runStages_first_error (σ : Type)
    (pre : List (List Char × (σ → Except (List Char) σ))) (name : List Char)
    (f : σ → Except (List Char) σ)
    (suf : List (List Char × (σ → Except (List Char) σ))) (s0 s1 : σ)
    (e : List Char) (hpre : chainOk pre s0 = some s1) (hf : f s1 = .error e) :
    runStages (pre ++ (name, f) :: suf) s0 =
      ⟨pre.map Prod.fst ++ [name], [], .failed e⟩ := by
  induction pre generalizing s0 with
  | nil =>
      simp only [chainOk, Option.some.injEq] at hpre
      subst hpre
      simpa using runStages_cons_err σ name f suf s0 e hf
  | cons hd tl ih =>
      obtain ⟨n, g⟩ := hd
      simp only [chainOk] at hpre
      cases hg : g s0 with
      | error e2 => rw [hg] at hpre; exact absurd hpre (by simp)
      | ok s2 =>
          rw [hg] at hpre
          rw [List.cons_append, runStages_cons_ok σ n g _ s0 s2 hg, ih s2 hpre]
          simp

/-- **C4 counterexample**: the run result returned for a stage-2 failure is
identical to the one returned for a stage-3 failure with the same
underlying message, so the reported failure cannot identify stage 2 (or any
stage): only the bare exception message is surfaced. -/
theorem stage2_failure_report_counterexample :
    (orchestrator_run fsFail2 0).outcome = (orchestrator_run fsFail3 0).outcome ∧
    (orchestrator_run fsFail2 0).outcome = RunOutcome.failed "boom".data :=
  ⟨rfl, rfl⟩

/-- **C4 (amended)**: if stage 1 succeeds and stage 2 (question generation)
raises `e`, stages 3-7 are never started (the executed-stage headers are
exactly ProductParserAgent then QuestionGeneratorAgent), no output document
is written, and the run returns failure carrying the bare message `e`; the
failing stage is identifiable only from the verbose progress log (the last
stage header printed is stage 2's), not from the returned result. -/
theorem stage2_failure_aborts (σ : Type) (fs : StageFns σ) (s0 s1 : σ)
    (e : List Char) (h1 : fs.parse s0 = .ok s1)
    (h2 : fs.generate_questions s1 = .error e) :
    orchestrator_run fs s0 =
      ⟨["ProductParserAgent".data, "QuestionGeneratorAgent".data], [], .failed e⟩ := by
  simp [orchestrator_run, runStages, h1, h2]

/-- Witness for the amended C4 with concrete stage behaviours. -/
theorem stage2_failure_aborts_witness :
    fsFail2.parse 0 = .ok 0 ∧ fsFail2.generate_questions 0 = .error "boom".data ∧
    orchestrator_run fsFail2 0 =
      ⟨["ProductParserAgent".data, "QuestionGeneratorAgent".data], [],
        .failed "boom".data⟩ :=
  ⟨rfl, rfl, stage2_failure_aborts Nat fsFail2 0 0 "boom".data rfl rfl⟩

/-- **C5 counterexample**: a stage-5 failure and a stage-6 failure with the
same underlying message produce byte-identical run results, so the error
surfaced to the caller is not annotated with the failing stage's name. -/
theorem error_annotation_counterexample :
    (orchestrator_run fsFail5 0).outcome = (orchestrator_run fsFail6 0).outcome ∧
    (orchestrator_run fsFail5 0).outcome =
      RunOutcome.failed "quota exceeded".data :=
  ⟨rfl, rfl⟩

/-- **C5 (amended)**: whichever stage is the first to fail, its error is
caught once at the top of the orchestrator and surfaced to the caller as
the bare exception message (no stage-name annotation), no output files are
written, and no later stage is started. -/
theorem error_surfaced_bare (σ : Type) (fs : StageFns σ) (s0 s1 : σ)
    (e : List Char)
    (pre suf : List (List Char × (σ → Except (List Char) σ)))
    (name : List Char) (f : σ → Except (List Char) σ)
    (hsplit : orchestrator_stages fs = pre ++ (name, f) :: suf)
    (hpre : chainOk pre s0 = some s1) (hf : f s1 = .error e) :
    orchestrator_run fs s0 = ⟨pre.map Prod.fst ++ [name], [], .failed e⟩ := by
  have hr : orchestrator_run fs s0 = runStages (orchestrator_stages fs) s0 := rfl
  rw [hr, hsplit]
  exact runStages_first_error σ pre name f suf s0 s1 e hpre hf

/-- Witness for the amended C5: stage 5 of `fsFail5` is the first failure. -/
theorem error_surfaced_bare_witness :
    orchestrator_stages fsFail5 =
      [("ProductParserAgent".data, okStage),
       ("QuestionGeneratorAgent".data, okStage),
       ("ContentLogicAgent".data, okStage),
       ("TemplateEngineAgent".data, okStage)] ++
        ("FAQPageAgent".data, errStage "quota exceeded".data) ::
          [("ProductPageAgent".data, okStage),
           ("ComparisonAgent".data, okStage)] ∧
    orchestrator_run fsFail5 0 =
      ⟨["ProductParserAgent".data, "QuestionGeneratorAgent".data,
        "ContentLogicAgent".data, "TemplateEngineAgent".data,
        "FAQPageAgent".data], [], .failed "quota exceeded".data⟩ :=
  ⟨rfl,
   error_surfaced_bare Nat fsFail5 0 0 "quota exceeded".data
     [("ProductParserAgent".data, okStage),
      ("QuestionGeneratorAgent".data, okStage),
      ("ContentLogicAgent".data, okStage),
      ("TemplateEngineAgent".data, okStage)]
     [("ProductPageAgent".data, okStage), ("ComparisonAgent".data, okStage)]
     "FAQPageAgent".data (errStage "quota exceeded".data) rfl rfl rfl⟩

theorem backfillCat_mem (cat : QCategory) (n : ℕ) (l : List (List Char))
    (e : SelQ) (he : e ∈ backfillCat cat n l) :
    e.category = cat ∧ e.question ∈ l := by
  induction l generalizing n with
  | nil => simp [backfillCat] at he
  | cons q rest ih =>
      rw [backfillCat] at he
      split_ifs at he with hn
      · simp at he
      · rcases List.mem_cons.mp he with rfl | hmem
        · exact ⟨rfl, by simp⟩
        · obtain ⟨hc, hq⟩ := ih (n + 1) hmem
          exact ⟨hc, by simp [hq]⟩

theorem backfill_mem (qs : QMap) (n : ℕ) (cats : List QCategory) (e : SelQ)
    (he : e ∈ backfill qs n cats) :
    ∃ l, qs e.category = some l ∧ e.question ∈ l.tail := by
  induction cats generalizing n with
  | nil => simp [backfill] at he
  | cons c cs ih =>
      rw [backfill] at he
      split_ifs at he with hn
      · simp at he
      · cases hqc : qs c with
        | none => rw [hqc] at he; exact ih _ he
        | some l =>
            rw [hqc] at he
            rcases List.mem_append.mp he with hmem | hmem
            · obtain ⟨hc, hq⟩ := backfillCat_mem c n l.tail e hmem
              exact ⟨l, by rw [hc, hqc], hq⟩
            · exact ih _ hmem

/-- **C9**: on a question set with at least one question in every category,
FAQ selection takes the first question of each category in the fixed
priority order (informational, usage, safety, purchase, comparison), giving
at least one question per populated category before any backfill; since the
first pass already reaches the minimum of 5 (`MIN_FAQ_ITEMS`), the
selection is exactly those five, and backfilled entries in general only
ever come from a category's tail (skipping the already-selected first
question). -/
theorem faq_selection_diverse (qs : QMap)
    (h : ∀ cat ∈ category_priority, ∃ q rest, qs cat = some (q :: rest)) :
    SelectionSpec qs := by
  obtain ⟨q1, r1, h1⟩ := h .informational (by simp [category_priority])
  obtain ⟨q2, r2, h2⟩ := h .usage (by simp [category_priority])
  obtain ⟨q3, r3, h3⟩ := h .safety (by simp [category_priority])
  obtain ⟨q4, r4, h4⟩ := h .purchase (by simp [category_priority])
  obtain ⟨q5, r5, h5⟩ := h .comparison (by simp [category_priority])
  have hfp : firstPass qs =
      [⟨q1, .informational⟩, ⟨q2, .usage⟩, ⟨q3, .safety⟩, ⟨q4, .purchase⟩,
       ⟨q5, .comparison⟩] := by
    simp [firstPass, category_priority, h1, h2, h3, h4, h5]
  have hsel : select_questions qs = firstPass qs := by
    dsimp only [select_questions]
    rw [hfp]
    simp [backfill, category_priority, MIN_FAQ_ITEMS]
  constructor
  · refine ⟨?_, ?_, ?_⟩
    · rw [hsel, hfp]; rfl
    · intro cat hc
      fin_cases hc
      · exact ⟨⟨q1, .informational⟩, by simp [hsel, hfp], rfl, r1, h1⟩
      · exact ⟨⟨q2, .usage⟩, by simp [hsel, hfp], rfl, r2, h2⟩
      · exact ⟨⟨q3, .safety⟩, by simp [hsel, hfp], rfl, r3, h3⟩
      · exact ⟨⟨q4, .purchase⟩, by simp [hsel, hfp], rfl, r4, h4⟩
      · exact ⟨⟨q5, .comparison⟩, by simp [hsel, hfp], rfl, r5, h5⟩
    · rw [hsel, hfp]; rfl
  · intro n cats e he
    exact backfill_mem qs n cats e he

/-- Witness for C9 on a fully populated sample question set. -/
theorem faq_selection_diverse_witness :
    (∀ cat ∈ category_priority, ∃ q rest, qsSample cat = some (q :: rest)) ∧
      SelectionSpec qsSample :=
  ⟨by intro cat hc; fin_cases hc <;> exact ⟨_, _, rfl⟩,
   faq_selection_diverse qsSample
     (by intro cat hc; fin_cases hc <;> exact ⟨_, _, rfl⟩)⟩

/-! ### List utilities for the envelope-parser proofs -/

theorem lastChar_append (xs ys : List Char) (h : ys ≠ []) :
    lastChar (xs ++ ys) = lastChar ys := by
  unfold lastChar
  rw [List.reverse_append]
  cases hys : ys.reverse with
  | nil => exact absurd (by simpa using hys) h
  | cons a l => simp [hys]

theorem lastChar_cons_ne (c : Char) (l : List Char) (h : l ≠ []) :
    lastChar (c :: l) = lastChar l := lastChar_append [c] l h

theorem lastChar_singleton (c : Char) : lastChar [c] = some c := rfl

theorem lastChar_concat (l : List Char) (c : Char) : lastChar (l ++ [c]) = some c := by
  unfold lastChar
  simp

theorem lastChar_mem (l : List Char) (c : Char) (h : lastChar l = some c) : c ∈ l := by
  unfold lastChar at h
  rw [← List.mem_reverse]
  cases hl : l.reverse with
  | nil => rw [hl] at h; simp at h
  | cons a t =>
      rw [hl] at h
      simp only [List.head?_cons, Option.some.injEq] at h
      simp [h]

theorem lastChar_exists (l : List Char) (h : l ≠ []) : ∃ c, lastChar l = some c := by
  unfold lastChar
  cases hl : l.reverse with
  | nil => exact absurd (by simpa using hl) h
  | cons a t => exact ⟨a, by simp⟩

theorem takeWhile_sat (p : Char → Bool) (l : List Char) :
    ∀ c ∈ l.takeWhile p, p c = true := by
  induction l with
  | nil => simp
  | cons a t ih =>
      intro c hc
      rw [List.takeWhile] at hc
      cases hp : p a with
      | false => rw [hp] at hc; simp at hc
      | true =>
          rw [hp] at hc
          rcases List.mem_cons.mp hc with rfl | hm
          · exact hp
          · exact ih c hm

theorem dropWhile_nil_sat (p : Char → Bool) (l : List Char)
    (h : l.dropWhile p = []) : ∀ c ∈ l, p c = true := by
  induction l with
  | nil => simp
  | cons a t ih =>
      rw [List.dropWhile] at h
      cases hp : p a with
      | false => rw [hp] at h; simp at h
      | true =>
          rw [hp] at h
          intro c hc
          rcases List.mem_cons.mp hc with rfl | hm
          · exact hp
          · exact ih h c hm

theorem dropWhile_head_false (p : Char → Bool) (l : List Char) (c : Char)
    (h : (l.dropWhile p).head? = some c) : p c = false := by
  induction l with
  | nil => simp [List.dropWhile] at h
  | cons a t ih =>
      rw [List.dropWhile] at h
      cases hp : p a with
      | false => rw [hp] at h; simp at h; rw [← h]; exact hp
      | true => rw [hp] at h; exact ih h

theorem dropWhile_eq_self_of_head (p : Char → Bool) (l : List Char)
    (h : ∀ c, l.head? = some c → p c = false) : l.dropWhile p = l := by
  cases l with
  | nil => rfl
  | cons a t => simp [List.dropWhile, h a rfl]

theorem peels_refl (cs : List Char) : Peels cs cs := ⟨[], rfl⟩

theorem peels_cons (c : Char) (l : List Char) : Peels (c :: l) l := ⟨[c], rfl⟩

theorem peels_skipWs (l : List Char) : Peels l (skipWs l) :=
  ⟨l.takeWhile isJsonWs, (List.takeWhile_append_dropWhile isJsonWs l).symm⟩

theorem peels_trans (a b c : List Char) (h1 : Peels a b) (h2 : Peels b c) :
    Peels a c := by
  obtain ⟨p1, rfl⟩ := h1
  obtain ⟨p2, rfl⟩ := h2
  exact ⟨p1 ++ p2, by simp⟩

theorem consumedEnd_of_peels (a b c : List Char) (x : Char) (h1 : Peels a b)
    (h2 : ConsumedEnd b c x) : ConsumedEnd a c x := by
  obtain ⟨p1, rfl⟩ := h1
  obtain ⟨p2, rfl, hne, hlast⟩ := h2
  exact ⟨p1 ++ p2, by simp, by simp [hne], by rw [lastChar_append p1 p2 hne]; exact hlast⟩

theorem consumedEnd_cons_self (c : Char) (rest : List Char) :
    ConsumedEnd (c :: rest) rest c := ⟨[c], rfl, by simp, rfl⟩

theorem consumedEnd_peels (a b c : List Char) (x : Char) (h1 : ConsumedEnd a b x)
    (h2 : Peels b c) : Peels a c := by
  obtain ⟨p1, rfl, -, -⟩ := h1
  obtain ⟨p2, rfl⟩ := h2
  exact ⟨p1 ++ p2, by simp⟩

theorem scanString_consumed (fuel : ℕ) : ∀ (cs s rest : List Char),
    scanString fuel cs = some (s, rest) → ConsumedEnd cs rest '"' := by
  induction fuel with
  | zero => intro cs s rest h; simp [scanString] at h
  | succ fuel ih =>
      intro cs s rest h
      cases cs with
      | nil => simp [scanString] at h
      | cons c cs1 =>
          rw [scanString.eq_def] at h
          dsimp only at h
          by_cases hq : c = '"'
          · rw [if_pos hq] at h
            simp only [Option.some.injEq, Prod.mk.injEq] at h
            obtain ⟨-, rfl⟩ := h
            exact ⟨[c], rfl, by simp, by rw [lastChar_singleton, hq]⟩
          rw [if_neg hq] at h
          by_cases hbs : c = '\\'
          · rw [if_pos hbs] at h
            cases cs1 with
            | nil => simp at h
            | cons e cs2 =>
                dsimp only at h
                by_cases hu : e = 'u'
                · rw [if_pos hu] at h
                  rcases cs2 with _ | ⟨h1, _ | ⟨h2, _ | ⟨h3, _ | ⟨h4, cs3⟩⟩⟩⟩
                  · simp at h
                  · simp at h
                  · simp at h
                  · simp at h
                  · dsimp only at h
                    cases hx1 : hexVal h1 with
                    | none => rw [hx1] at h; simp at h
                    | some a =>
                        rw [hx1] at h
                        cases hx2 : hexVal h2 with
                        | none => rw [hx2] at h; simp at h
                        | some b =>
                            rw [hx2] at h
                            cases hx3 : hexVal h3 with
                            | none => rw [hx3] at h; simp at h
                            | some c3 =>
                                rw [hx3] at h
                                cases hx4 : hexVal h4 with
                                | none => rw [hx4] at h; simp at h
                                | some d =>
                                    rw [hx4] at h
                                    dsimp only at h
                                    cases hrec : scanString fuel cs3 with
                                    | none => rw [hrec] at h; simp at h
                                    | some pr =>
                                        obtain ⟨s2, r2⟩ := pr
                                        rw [hrec] at h
                                        simp only [Option.some.injEq,
                                          Prod.mk.injEq] at h
                                        obtain ⟨-, rfl⟩ := h
                                        exact consumedEnd_of_peels _ _ _ _
                                          ⟨[c, e, h1, h2, h3, h4], rfl⟩
                                          (ih cs3 s2 r2 hrec)
                · rw [if_neg hu] at h
                  cases hesc : escChar e with
                  | none => rw [hesc] at h; simp at h
                  | some d =>
                      rw [hesc] at h
                      cases hrec : scanString fuel cs2 with
                      | none => rw [hrec] at h; simp at h
                      | some pr =>
                          obtain ⟨s2, r2⟩ := pr
                          rw [hrec] at h
                          simp only [Option.some.injEq, Prod.mk.injEq] at h
                          obtain ⟨-, rfl⟩ := h
                          exact consumedEnd_of_peels _ _ _ _ ⟨[c, e], rfl⟩
                            (ih cs2 s2 r2 hrec)
          rw [if_neg hbs] at h
          by_cases hctl : c.toNat < 32
          · rw [if_pos hctl] at h; simp at h
          · rw [if_neg hctl] at h
            cases hrec : scanString fuel cs1 with
            | none => rw [hrec] at h; simp at h
            | some pr =>
                obtain ⟨s2, r2⟩ := pr
                rw [hrec] at h
                simp only [Option.some.injEq, Prod.mk.injEq] at h
                obtain ⟨-, rfl⟩ := h
                exact consumedEnd_of_peels _ _ _ _ ⟨[c], rfl⟩ (ih cs1 s2 r2 hrec)

theorem spanDigits_split (cs : List Char) : cs = (spanDigits cs).1 ++ (spanDigits cs).2 :=
  (List.takeWhile_append_dropWhile Char.isDigit cs).symm

theorem spanDigits_digits (cs : List Char) : ∀ c ∈ (spanDigits cs).1, c.isDigit = true :=
  takeWhile_sat Char.isDigit cs

theorem lastChar_digits (l : List Char) (hne : l ≠ [])
    (hall : ∀ c ∈ l, c.isDigit = true) :
    ∃ c, lastChar l = some c ∧ c.isDigit = true := by
  obtain ⟨c, hc⟩ := lastChar_exists l hne
  exact ⟨c, hc, hall c (lastChar_mem l c hc)⟩

theorem scanFrac_split (cs : List Char) :
    cs = (scanFrac cs).1 ++ (scanFrac cs).2 ∧
    ((scanFrac cs).1 = [] ∨
      ∃ c, lastChar (scanFrac cs).1 = some c ∧ c.isDigit = true) := by
  rw [scanFrac.eq_def]
  split
  · next r =>
      dsimp only
      split_ifs with he
      · exact ⟨rfl, Or.inl rfl⟩
      · have hq : (spanDigits r).1 ≠ [] := by
          cases hsp : (spanDigits r).1 <;> simp_all [List.isEmpty]
        constructor
        · dsimp only
          rw [List.cons_append, ← spanDigits_split r]
        · refine Or.inr ?_
          obtain ⟨c, hc, hd⟩ := lastChar_digits (spanDigits r).1 hq (spanDigits_digits r)
          exact ⟨c, by rw [lastChar_cons_ne _ _ hq]; exact hc, hd⟩
  · next => exact ⟨rfl, Or.inl rfl⟩

theorem scanExpPart_split (cs : List Char) :
    cs = (scanExpPart cs).1 ++ (scanExpPart cs).2 ∧
    ((scanExpPart cs).1 = [] ∨
      ∃ c, lastChar (scanExpPart cs).1 = some c ∧ c.isDigit = true) := by
  cases cs with
  | nil => exact ⟨rfl, Or.inl rfl⟩
  | cons c r =>
      rw [scanExpPart.eq_def]
      dsimp only
      by_cases he : (c = 'e' || c = 'E') = true
      · rw [if_pos he]
        cases r with
        | nil => exact ⟨rfl, Or.inl rfl⟩
        | cons sgn r2 =>
            dsimp only
            by_cases hs : (sgn = '+' || sgn = '-') = true
            · rw [if_pos hs]
              by_cases hq : (spanDigits r2).1.isEmpty = true
              · rw [if_pos hq]
                exact ⟨rfl, Or.inl rfl⟩
              · rw [if_neg hq]
                have hne : (spanDigits r2).1 ≠ [] := by
                  cases hsp : (spanDigits r2).1 <;> simp_all [List.isEmpty]
                constructor
                · dsimp only
                  rw [List.cons_append, List.cons_append, ← spanDigits_split r2]
                · refine Or.inr ?_
                  obtain ⟨x, hx, hd⟩ :=
                    lastChar_digits (spanDigits r2).1 hne (spanDigits_digits r2)
                  refine ⟨x, ?_, hd⟩
                  rw [show c :: sgn :: (spanDigits r2).1 =
                    [c, sgn] ++ (spanDigits r2).1 from rfl]
                  rw [lastChar_append _ _ hne]
                  exact hx
            · rw [if_neg hs]
              by_cases hq : (spanDigits (sgn :: r2)).1.isEmpty = true
              · rw [if_pos hq]
                exact ⟨rfl, Or.inl rfl⟩
              · rw [if_neg hq]
                have hne : (spanDigits (sgn :: r2)).1 ≠ [] := by
                  cases hsp : (spanDigits (sgn :: r2)).1 <;> simp_all [List.isEmpty]
                constructor
                · dsimp only
                  rw [List.cons_append, ← spanDigits_split (sgn :: r2)]
                · refine Or.inr ?_
                  obtain ⟨x, hx, hd⟩ := lastChar_digits (spanDigits (sgn :: r2)).1 hne
                    (spanDigits_digits (sgn :: r2))
                  exact ⟨x, by rw [lastChar_cons_ne _ _ hne]; exact hx, hd⟩
      · rw [if_neg he]
        exact ⟨rfl, Or.inl rfl⟩

theorem scanTail_consumed (u : List Char)
    (hne : (spanDigits u).1 ≠ []) :
    ∃ c, c.isDigit = true ∧
      ConsumedEnd u ((scanExpPart ((scanFrac ((spanDigits u).2)).2)).2) c := by
  obtain ⟨hdig⟩ : Nonempty (∀ c ∈ (spanDigits u).1, c.isDigit = true) :=
    ⟨spanDigits_digits u⟩
  have hu : u = (spanDigits u).1 ++ (spanDigits u).2 := spanDigits_split u
  set P1 := (spanDigits u).1 with hP1
  set P2 := (spanDigits u).2 with hP2
  obtain ⟨h2, h2e⟩ := scanFrac_split P2
  set F1 := (scanFrac P2).1 with hF1
  set F2 := (scanFrac P2).2 with hF2
  obtain ⟨h3, h3e⟩ := scanExpPart_split F2
  set E1 := (scanExpPart F2).1 with hE1
  set E2 := (scanExpPart F2).2 with hE2
  rcases h3e with h3nil | ⟨c3, hc3, hd3⟩
  · rcases h2e with h2nil | ⟨c2, hc2, hd2⟩
    · obtain ⟨c, hc, hd⟩ := lastChar_digits P1 hne hdig
      refine ⟨c, hd, P1, ?_, hne, hc⟩
      rw [hu, h2, h2nil, h3, h3nil, List.nil_append, List.nil_append]
    · have hne2 : F1 ≠ [] := by
        intro hx; rw [hx] at hc2; simp [lastChar] at hc2
      refine ⟨c2, hd2, P1 ++ F1, ?_, by simp [hne2], ?_⟩
      · rw [hu, h2, h3, h3nil, List.nil_append, List.append_assoc]
      · rw [lastChar_append _ _ hne2]; exact hc2
  · have hne3 : E1 ≠ [] := by
      intro hx; rw [hx] at hc3; simp [lastChar] at hc3
    refine ⟨c3, hd3, (P1 ++ F1) ++ E1, ?_, by simp [hne3], ?_⟩
    · rw [hu, h2, h3]
      simp [List.append_assoc]
    · rw [lastChar_append _ _ hne3]; exact hc3

theorem scanNumber_consumed (cs tok rest : List Char)
    (h : scanNumber cs = some (tok, rest)) :
    ∃ c, c.isDigit = true ∧ ConsumedEnd cs rest c := by
  unfold scanNumber at h
  dsimp only at h
  by_cases hm : cs.head? = some '-'
  · rw [if_pos hm] at h
    dsimp only at h
    split_ifs at h with h1 h2
    simp only [Option.some.injEq, Prod.mk.injEq] at h
    obtain ⟨-, rfl⟩ := h
    have hne : (spanDigits cs.tail).1 ≠ [] := by
      cases hsp : (spanDigits cs.tail).1 <;> simp_all [List.isEmpty]
    obtain ⟨c, hd, hce⟩ := scanTail_consumed cs.tail hne
    refine ⟨c, hd, consumedEnd_of_peels _ _ _ _ ?_ hce⟩
    rcases cs with _ | ⟨c0, t⟩
    · simp at hm
    · exact peels_cons c0 t
  · rw [if_neg hm] at h
    dsimp only at h
    split_ifs at h with h1 h2
    simp only [Option.some.injEq, Prod.mk.injEq] at h
    obtain ⟨-, rfl⟩ := h
    have hne : (spanDigits cs).1 ≠ [] := by
      cases hsp : (spanDigits cs).1 <;> simp_all [List.isEmpty]
    obtain ⟨c, hd, hce⟩ := scanTail_consumed cs hne
    exact ⟨c, hd, hce⟩

theorem startsWith_split (lit : List Char) : ∀ (cs : List Char),
    startsWith lit cs = true → cs = lit ++ cs.drop lit.length := by
  induction lit with
  | nil => intro cs _; simp
  | cons p ps ih =>
      intro cs h
      cases cs with
      | nil => simp [startsWith] at h
      | cons c cs1 =>
          simp only [startsWith, Bool.and_eq_true, decide_eq_true_eq] at h
          obtain ⟨rfl, h2⟩ := h
          simpa using ih cs1 h2

theorem expectLit_eq (lit cs rest : List Char) (h : expectLit lit cs = some rest) :
    cs = lit ++ rest := by
  unfold expectLit at h
  split_ifs at h with hs
  simp only [Option.some.injEq] at h
  subst h
  exact startsWith_split lit cs hs

theorem peels_of_consumedEnd (a b : List Char) (x : Char) (h : ConsumedEnd a b x) :
    Peels a b := by
  obtain ⟨p, rfl, -, -⟩ := h
  exact ⟨p, rfl⟩

theorem goodEnd_digit (c : Char) (h : c.isDigit = true) : goodEnd c = true := by
  simp [goodEnd, h]

theorem parseAux_consumed (fuel : ℕ) : ∀ (req : PReq) (cs : List Char) (out : PRes)
    (rest : List Char), parseAux fuel req cs = some (out, rest) →
    ∃ c, goodEnd c = true ∧ ConsumedEnd cs rest c := by
  induction fuel with
  | zero => intro req cs out rest h; simp [parseAux] at h
  | succ fuel ih =>
      intro req cs out rest h
      cases req with
      | val =>
          cases cs with
          | nil => rw [parseAux.eq_def] at h; simp at h
          | cons c r =>
              rw [parseAux.eq_def] at h
              dsimp only at h
              by_cases h1 : c = '"'
              · rw [if_pos h1] at h
                cases hss : scanString (fuel + 1) r with
                | none => rw [hss] at h; simp at h
                | some pr =>
                    obtain ⟨sv, r1⟩ := pr
                    rw [hss] at h
                    simp only [Option.some.injEq, Prod.mk.injEq] at h
                    obtain ⟨-, rfl⟩ := h
                    exact ⟨'"', by decide, consumedEnd_of_peels _ _ _ _
                      (peels_cons c r) (scanString_consumed (fuel + 1) r sv r1 hss)⟩
              rw [if_neg h1] at h
              by_cases h2 : c = '['
              · rw [if_pos h2] at h
                split at h
                · rename_i r2 hsw
                  simp only [Option.some.injEq, Prod.mk.injEq] at h
                  obtain ⟨-, rfl⟩ := h
                  refine ⟨']', by decide, consumedEnd_of_peels _ _ _ _ ?_
                    (consumedEnd_cons_self ']' r2)⟩
                  have hp : Peels r (']' :: r2) := by
                    have hx := peels_skipWs r
                    rwa [hsw] at hx
                  exact peels_trans _ _ _ (peels_cons c r) hp
                · cases hpe : parseAux fuel .elems (skipWs r) with
                  | none => rw [hpe] at h; simp at h
                  | some pr =>
                      obtain ⟨res, r3⟩ := pr
                      rw [hpe] at h
                      cases res with
                      | v j => simp at h
                      | ms l => simp at h
                      | vs l =>
                          simp only [Option.some.injEq, Prod.mk.injEq] at h
                          obtain ⟨-, rfl⟩ := h
                          obtain ⟨cg, hg, hce⟩ := ih .elems (skipWs r) _ _ hpe
                          exact ⟨cg, hg, consumedEnd_of_peels _ _ _ _
                            (peels_trans _ _ _ (peels_cons c r) (peels_skipWs r)) hce⟩
              rw [if_neg h2] at h
              by_cases h3 : c = '\x7b'
              · rw [if_pos h3] at h
                split at h
                · rename_i r2 hsw
                  simp only [Option.some.injEq, Prod.mk.injEq] at h
                  obtain ⟨-, rfl⟩ := h
                  refine ⟨'\x7d', by decide, consumedEnd_of_peels _ _ _ _ ?_
                    (consumedEnd_cons_self '\x7d' r2)⟩
                  have hp : Peels r ('\x7d' :: r2) := by
                    have hx := peels_skipWs r
                    rwa [hsw] at hx
                  exact peels_trans _ _ _ (peels_cons c r) hp
                · cases hpe : parseAux fuel .mems (skipWs r) with
                  | none => rw [hpe] at h; simp at h
                  | some pr =>
                      obtain ⟨res, r3⟩ := pr
                      rw [hpe] at h
                      cases res with
                      | v j => simp at h
                      | vs l => simp at h
                      | ms l =>
                          simp only [Option.some.injEq, Prod.mk.injEq] at h
                          obtain ⟨-, rfl⟩ := h
                          obtain ⟨cg, hg, hce⟩ := ih .mems (skipWs r) _ _ hpe
                          exact ⟨cg, hg, consumedEnd_of_peels _ _ _ _
                            (peels_trans _ _ _ (peels_cons c r) (peels_skipWs r)) hce⟩
              rw [if_neg h3] at h
              by_cases h4 : c = 't'
              · rw [if_pos h4] at h
                cases hel : expectLit "rue".data r with
                | none => rw [hel] at h; simp at h
                | some r1 =>
                    rw [hel] at h
                    simp only [Option.some.injEq, Prod.mk.injEq] at h
                    obtain ⟨-, rfl⟩ := h
                    subst h4
                    refine ⟨'e', by decide, 't' :: "rue".data, ?_, by simp, by decide⟩
                    rw [expectLit_eq "rue".data r r1 hel]
                    rfl
              rw [if_neg h4] at h
              by_cases h5 : c = 'f'
              · rw [if_pos h5] at h
                cases hel : expectLit "alse".data r with
                | none => rw [hel] at h; simp at h
                | some r1 =>
                    rw [hel] at h
                    simp only [Option.some.injEq, Prod.mk.injEq] at h
                    obtain ⟨-, rfl⟩ := h
                    subst h5
                    refine ⟨'e', by decide, 'f' :: "alse".data, ?_, by simp, by decide⟩
                    rw [expectLit_eq "alse".data r r1 hel]
                    rfl
              rw [if_neg h5] at h
              by_cases h6 : c = 'n'
              · rw [if_pos h6] at h
                cases hel : expectLit "ull".data r with
                | none => rw [hel] at h; simp at h
                | some r1 =>
                    rw [hel] at h
                    simp only [Option.some.injEq, Prod.mk.injEq] at h
                    obtain ⟨-, rfl⟩ := h
                    subst h6
                    refine ⟨'l', by decide, 'n' :: "ull".data, ?_, by simp, by decide⟩
                    rw [expectLit_eq "ull".data r r1 hel]
                    rfl
              rw [if_neg h6] at h
              by_cases h7 : (c = '-' || c.isDigit) = true
              · rw [if_pos h7] at h
                cases hsn : scanNumber (c :: r) with
                | none => rw [hsn] at h; simp at h
                | some pr =>
                    obtain ⟨tok, r1⟩ := pr
                    rw [hsn] at h
                    simp only [Option.some.injEq, Prod.mk.injEq] at h
                    obtain ⟨-, rfl⟩ := h
                    obtain ⟨d, hd, hce⟩ := scanNumber_consumed (c :: r) tok r1 hsn
                    exact ⟨d, goodEnd_digit d hd, hce⟩
              · rw [if_neg h7] at h
                simp at h
      | elems =>
          rw [parseAux.eq_def] at h
          dsimp only at h
          cases hv : parseAux fuel .val cs with
          | none => rw [hv] at h; simp at h
          | some pr =>
              obtain ⟨res, r1⟩ := pr
              rw [hv] at h
              cases res with
              | vs l => simp at h
              | ms l => simp at h
              | v j =>
                  dsimp only at h
                  obtain ⟨c1, hg1, hce1⟩ := ih .val cs _ _ hv
                  have hp1 : Peels cs (skipWs r1) :=
                    peels_trans _ _ _ (peels_of_consumedEnd _ _ _ hce1) (peels_skipWs r1)
                  split at h
                  · rename_i r2 hsw
                    cases hpe : parseAux fuel .elems (skipWs r2) with
                    | none => rw [hpe] at h; simp at h
                    | some pr2 =>
                        obtain ⟨res2, r3⟩ := pr2
                        rw [hpe] at h
                        cases res2 with
                        | v j2 => simp at h
                        | ms l => simp at h
                        | vs l =>
                            simp only [Option.some.injEq, Prod.mk.injEq] at h
                            obtain ⟨-, rfl⟩ := h
                            obtain ⟨c2, hg2, hce2⟩ := ih .elems (skipWs r2) _ _ hpe
                            refine ⟨c2, hg2, consumedEnd_of_peels _ _ _ _ ?_ hce2⟩
                            have hp2 : Peels cs (',' :: r2) := by
                              have hx := hp1
                              rwa [hsw] at hx
                            exact peels_trans _ _ _
                              (peels_trans _ _ _ hp2 (peels_cons ',' r2))
                              (peels_skipWs r2)
                  · rename_i r2 hsw
                    simp only [Option.some.injEq, Prod.mk.injEq] at h
                    obtain ⟨-, rfl⟩ := h
                    refine ⟨']', by decide, consumedEnd_of_peels _ _ _ _ ?_
                      (consumedEnd_cons_self ']' r2)⟩
                    rwa [hsw] at hp1
                  · simp at h
      | mems =>
          rw [parseAux.eq_def] at h
          dsimp only at h
          split at h
          · rename_i cs1
            cases hss : scanString (fuel + 1) cs1 with
            | none => rw [hss] at h; simp at h
            | some pr =>
                obtain ⟨k, r1⟩ := pr
                rw [hss] at h
                dsimp only at h
                have hpk : Peels cs1 (skipWs r1) :=
                  peels_trans _ _ _
                    (peels_of_consumedEnd _ _ _ (scanString_consumed (fuel + 1) cs1 k r1 hss))
                    (peels_skipWs r1)
                split at h
                · rename_i r2 hsw
                  cases hpv : parseAux fuel .val (skipWs r2) with
                  | none => rw [hpv] at h; simp at h
                  | some pr2 =>
                      obtain ⟨res, r3⟩ := pr2
                      rw [hpv] at h
                      cases res with
                      | vs l => simp at h
                      | ms l => simp at h
                      | v j =>
                          dsimp only at h
                          obtain ⟨cv, hgv, hcev⟩ := ih .val (skipWs r2) _ _ hpv
                          have hpv2 : Peels cs1 (skipWs r3) := by
                            have hp2 : Peels cs1 (':' :: r2) := by
                              have hx := hpk
                              rwa [hsw] at hx
                            exact peels_trans _ _ _
                              (peels_trans _ _ _
                                (peels_trans _ _ _ hp2 (peels_cons ':' r2))
                                (peels_skipWs r2))
                              (peels_trans _ _ _ (peels_of_consumedEnd _ _ _ hcev)
                                (peels_skipWs r3))
                          split at h
                          · rename_i r4 hsw3
                            cases hpm : parseAux fuel .mems (skipWs r4) with
                            | none => rw [hpm] at h; simp at h
                            | some pr3 =>
                                obtain ⟨res2, r5⟩ := pr3
                                rw [hpm] at h
                                cases res2 with
                                | v j2 => simp at h
                                | vs l => simp at h
                                | ms l =>
                                    simp only [Option.some.injEq, Prod.mk.injEq] at h
                                    obtain ⟨-, rfl⟩ := h
                                    obtain ⟨cm, hgm, hcem⟩ :=
                                      ih .mems (skipWs r4) _ _ hpm
                                    refine ⟨cm, hgm,
                                      consumedEnd_of_peels _ _ _ _ ?_ hcem⟩
                                    have hp4 : Peels cs1 (',' :: r4) := by
                                      have hx := hpv2
                                      rwa [hsw3] at hx
                                    exact peels_trans _ _ _ (peels_cons '"' cs1)
                                      (peels_trans _ _ _
                                        (peels_trans _ _ _ hp4 (peels_cons ',' r4))
                                        (peels_skipWs r4))
                          · rename_i r4 hsw3
                            simp only [Option.some.injEq, Prod.mk.injEq] at h
                            obtain ⟨-, rfl⟩ := h
                            refine ⟨'\x7d', by decide, consumedEnd_of_peels _ _ _ _ ?_
                              (consumedEnd_cons_self '\x7d' r4)⟩
                            refine peels_trans _ _ _ (peels_cons '"' cs1) ?_
                            rwa [hsw3] at hpv2
                          · simp at h
                · simp at h
          · simp at h

theorem parseAux_btick (fuel : ℕ) (r : List Char) :
    parseAux fuel .val (btick :: r) = none := by
  cases fuel with
  | zero => rfl
  | succ n => rfl

theorem skipWs_btick (r : List Char) : skipWs (btick :: r) = btick :: r := by
  simp [skipWs, List.dropWhile_cons, show isJsonWs btick = false from rfl]

theorem jsonDecode_head_btick (u r : List Char) (v : Json)
    (h : jsonDecode u = some v) (hu : u = btick :: r) : False := by
  subst hu
  rw [jsonDecode, skipWs_btick, parseAux_btick] at h
  simp at h

theorem jsonDecode_last_btick (u : List Char) (v : Json)
    (h : jsonDecode u = some v) (hl : lastChar u = some btick) : False := by
  rw [jsonDecode] at h
  cases hp : parseAux (2 * u.length + 2) .val (skipWs u) with
  | none => rw [hp] at h; simp at h
  | some pr =>
      obtain ⟨res, rest⟩ := pr
      rw [hp] at h
      cases res with
      | vs l => simp at h
      | ms l => simp at h
      | v j =>
          dsimp only at h
          by_cases he : (skipWs rest).isEmpty = true
          · obtain ⟨c, hg, pre, hsplit, hne, hlastp⟩ :=
              parseAux_consumed (2 * u.length + 2) .val (skipWs u) _ _ hp
            obtain ⟨w, hw⟩ := peels_skipWs u
            cases hrest : rest with
            | nil =>
                rw [hrest, List.append_nil] at hsplit
                have hlu : lastChar u = some c := by
                  rw [hw, hsplit, lastChar_append _ _ hne]
                  exact hlastp
                rw [hl] at hlu
                simp only [Option.some.injEq] at hlu
                rw [← hlu] at hg
                exact absurd hg (by decide)
            | cons x xs =>
                have hws : skipWs rest = [] := by
                  cases hx : skipWs rest
                  · rfl
                  · rw [hx] at he; simp [List.isEmpty] at he
                have hallws := dropWhile_nil_sat isJsonWs rest hws
                have hlr : lastChar rest = some btick := by
                  have h1 : lastChar u = lastChar (skipWs u) := by
                    nth_rewrite 1 [hw]
                    exact lastChar_append w (skipWs u)
                      (by rw [hsplit, hrest]; simp)
                  have h2 : lastChar (skipWs u) = lastChar rest := by
                    rw [hsplit]
                    exact lastChar_append pre rest (by rw [hrest]; simp)
                  rw [← h2, ← h1, hl]
                have hmem := lastChar_mem rest btick hlr
                have := hallws btick hmem
                exact absurd this (by decide)
          · rw [if_neg he] at h
            simp at h

theorem lastChar_dropEndWs (l : List Char) : ∀ c, lastChar (dropEndWs l) = some c →
    isPyWs c = false := by
  induction l with
  | nil => intro c h; simp [dropEndWs, lastChar] at h
  | cons a t ih =>
      intro c h
      rw [dropEndWs] at h
      by_cases hr : (dropEndWs t).isEmpty = true
      · rw [if_pos hr] at h
        by_cases ha : isPyWs a = true
        · rw [if_pos ha] at h; simp [lastChar] at h
        · rw [if_neg ha] at h
          rw [lastChar_singleton] at h
          simp only [Option.some.injEq] at h
          rw [← h]
          simpa using ha
      · rw [if_neg hr] at h
        have ht : dropEndWs t ≠ [] := by
          cases hx : dropEndWs t <;> simp_all [List.isEmpty]
        rw [lastChar_cons_ne a _ ht] at h
        exact ih c h

theorem pyStrip_head (l : List Char) (c : Char) (h : (pyStrip l).head? = some c) :
    isPyWs c = false :=
  dropWhile_head_false isPyWs (dropEndWs l) c h

theorem pyStrip_last (l : List Char) (c : Char) (h : lastChar (pyStrip l) = some c) :
    isPyWs c = false := by
  have hne : pyStrip l ≠ [] := by
    intro hx; rw [hx] at h; simp [lastChar] at h
  have hsplit : dropEndWs l = (dropEndWs l).takeWhile isPyWs ++ pyStrip l :=
    (List.takeWhile_append_dropWhile isPyWs (dropEndWs l)).symm
  have : lastChar (dropEndWs l) = some c := by
    rw [hsplit, lastChar_append _ _ hne]
    exact h
  exact lastChar_dropEndWs l c this

theorem dropEndWs_eq_self (l : List Char)
    (h : ∀ c, lastChar l = some c → isPyWs c = false) : dropEndWs l = l := by
  induction l with
  | nil => rfl
  | cons a t ih =>
      by_cases ht : t = []
      · subst ht
        have ha := h a (by simp [lastChar])
        simp [dropEndWs, ha]
      · have hdt := ih (fun c hc => h c (by rw [lastChar_cons_ne a t ht]; exact hc))
        rw [dropEndWs, hdt]
        rw [if_neg (by cases t <;> simp_all [List.isEmpty])]

theorem pyStrip_eq_self (l : List Char)
    (hh : ∀ c, l.head? = some c → isPyWs c = false)
    (hl : ∀ c, lastChar l = some c → isPyWs c = false) : pyStrip l = l := by
  unfold pyStrip
  rw [dropEndWs_eq_self l hl]
  exact dropWhile_eq_self_of_head isPyWs l hh

theorem pyStrip_idem (l : List Char) : pyStrip (pyStrip l) = pyStrip l :=
  pyStrip_eq_self (pyStrip l) (pyStrip_head l) (pyStrip_last l)

theorem dropEndWs_append_ws (l : List Char) (c : Char) (hc : isPyWs c = true) :
    dropEndWs (l ++ [c]) = dropEndWs l := by
  induction l with
  | nil => simp [dropEndWs, hc]
  | cons a t ih =>
      rw [List.cons_append, dropEndWs, ih]
      rfl

theorem lastChar_wrap (t : List Char) : lastChar (wrapJsonFence t) = some btick := by
  unfold wrapJsonFence
  rw [lastChar_append _ _ (by simp)]
  rw [lastChar_cons_ne _ _ (by simp)]
  rw [lastChar_append t ('\n' :: fence3) (by simp)]
  decide

theorem pyStrip_wrap (t : List Char) : pyStrip (wrapJsonFence t) = wrapJsonFence t := by
  apply pyStrip_eq_self
  · intro c hc
    have : c = btick := by
      simpa [wrapJsonFence, fenceJson] using hc.symm
    rw [this]
    decide
  · intro c hc
    rw [lastChar_wrap t] at hc
    simp only [Option.some.injEq] at hc
    rw [← hc]
    decide

theorem startsWith_append_self (p : List Char) : ∀ l, startsWith p (p ++ l) = true := by
  induction p with
  | nil => intro l; rfl
  | cons a q ih => intro l; simp [startsWith, ih l]

theorem cleanFences_wrap (t : List Char) :
    cleanFences (wrapJsonFence t) = '\n' :: (t ++ ['\n']) := by
  have h1 : startsWith fenceJson (wrapJsonFence t) = true :=
    startsWith_append_self fenceJson ('\n' :: (t ++ '\n' :: fence3))
  have hd : (wrapJsonFence t).drop 7 = '\n' :: (t ++ '\n' :: fence3) := rfl
  have hrev : ('\n' :: (t ++ '\n' :: fence3)).reverse =
      btick :: btick :: btick :: '\n' :: (t.reverse ++ ['\n']) := by
    simp [fence3, List.reverse_cons, List.reverse_append, List.append_assoc]
  have h2 : startsWith fence3 ('\n' :: (t ++ '\n' :: fence3)) = false := rfl
  have h3 : endsWith fence3 ('\n' :: (t ++ '\n' :: fence3)) = true := by
    unfold endsWith
    rw [hrev]
    rfl
  have h4 : dropLastN 3 ('\n' :: (t ++ '\n' :: fence3)) = '\n' :: (t ++ ['\n']) := by
    unfold dropLastN
    rw [hrev]
    simp [List.reverse_append, List.reverse_cons]
  have h2n : ¬(startsWith fence3 ('\n' :: (t ++ '\n' :: fence3)) = true) := by
    rw [h2]; simp
  unfold cleanFences dropOpenJson dropOpen3 dropClose3
  rw [if_pos h1, hd, if_neg h2n, if_pos h3]
  exact h4

theorem pyStrip_nl_wrap (t : List Char) :
    pyStrip ('\n' :: (t ++ ['\n'])) = pyStrip t := by
  unfold pyStrip
  have h1 : dropEndWs ('\n' :: (t ++ ['\n'])) = dropEndWs ('\n' :: t) := by
    rw [show '\n' :: (t ++ ['\n']) = ('\n' :: t) ++ ['\n'] from rfl]
    exact dropEndWs_append_ws ('\n' :: t) '\n' (by decide)
  rw [h1]
  by_cases hr : (dropEndWs t).isEmpty = true
  · have h2 : dropEndWs ('\n' :: t) = [] := by
      rw [dropEndWs, if_pos hr]
      rfl
    have h3 : dropEndWs t = [] := by
      cases hx : dropEndWs t <;> simp_all [List.isEmpty]
    rw [h2, h3]
  · have h2 : dropEndWs ('\n' :: t) = '\n' :: dropEndWs t := by
      rw [dropEndWs, if_neg hr]
    rw [h2]
    rw [List.dropWhile_cons]
    rw [if_pos (by decide)]

theorem cleanFences_decode (u : List Char) (v : Json) (h : jsonDecode u = some v) :
    cleanFences u = u := by
  have hs1 : startsWith fenceJson u = false := by
    by_contra hx
    have hx2 : startsWith fenceJson u = true := by simpa using hx
    obtain ⟨r, hr⟩ : ∃ r, u = btick :: r := by
      cases u with
      | nil => simp [startsWith, fenceJson] at hx2
      | cons c cs =>
          simp only [fenceJson, startsWith, Bool.and_eq_true, decide_eq_true_eq] at hx2
          exact ⟨cs, by rw [← hx2.1]⟩
    exact jsonDecode_head_btick u r v h hr
  have hs3 : startsWith fence3 u = false := by
    by_contra hx
    have hx2 : startsWith fence3 u = true := by simpa using hx
    obtain ⟨r, hr⟩ : ∃ r, u = btick :: r := by
      cases u with
      | nil => simp [startsWith, fence3] at hx2
      | cons c cs =>
          simp only [fence3, startsWith, Bool.and_eq_true, decide_eq_true_eq] at hx2
          exact ⟨cs, by rw [← hx2.1]⟩
    exact jsonDecode_head_btick u r v h hr
  have hend : endsWith fence3 u = false := by
    by_contra hx
    have hx2 : endsWith fence3 u = true := by simpa using hx
    have hlast : lastChar u = some btick := by
      unfold endsWith at hx2
      unfold lastChar
      cases hur : u.reverse with
      | nil => rw [hur] at hx2; simp [fence3, startsWith] at hx2
      | cons c cs =>
          rw [hur] at hx2
          rw [show fence3.reverse = fence3 from rfl] at hx2
          simp only [fence3, startsWith, Bool.and_eq_true, decide_eq_true_eq] at hx2
          rw [← hx2.1]
          simp
    exact jsonDecode_last_btick u v h hlast
  have hs1n : ¬(startsWith fenceJson u = true) := by rw [hs1]; simp
  have hs3n : ¬(startsWith fence3 u = true) := by rw [hs3]; simp
  have hendn : ¬(endsWith fence3 u = true) := by rw [hend]; simp
  unfold cleanFences dropOpenJson dropOpen3 dropClose3
  rw [if_neg hs1n, if_neg hs3n, if_neg hendn]

/-- **C6**: for every JSON text `t` (a text whose stripped content decodes
as JSON), parsing `t` wrapped in an opening ```` ```json ```` fence and a
closing ```` ``` ```` fence yields exactly the same value as parsing the
unwrapped `t`; and every input whose text after fence-stripping is not
valid JSON is answered with the raised `ParseError` (the source's
`ValueError`), never a value. -/
theorem envelope_fence_transparent :
    (∀ t v, jsonDecode (pyStrip t) = some v →
      parse_response (wrapJsonFence t) = .ok v ∧ parse_response t = .ok v) ∧
    (∀ s, jsonDecode (pyStrip (cleanFences (pyStrip s))) = none →
      parse_response s = .error "Failed to parse LLM response as JSON".data) := by
  constructor
  · intro t v h
    constructor
    · unfold parse_response
      rw [pyStrip_wrap t, cleanFences_wrap t, pyStrip_nl_wrap t, h]
    · unfold parse_response
      rw [cleanFences_decode (pyStrip t) v h, pyStrip_idem t, h]
  · intro s hn
    unfold parse_response
    rw [hn]

/-- Witness for C6: the JSON text `true` parses identically wrapped and
unwrapped, and a non-JSON input raises the parse error. -/
theorem envelope_fence_transparent_witness :
    jsonDecode (pyStrip "true".data) = some (.bool true) ∧
    (parse_response (wrapJsonFence "true".data) = .ok (.bool true) ∧
      parse_response "true".data = .ok (.bool true)) ∧
    jsonDecode (pyStrip (cleanFences (pyStrip "not json".data))) = none ∧
    parse_response "not json".data =
      .error "Failed to parse LLM response as JSON".data :=
  ⟨rfl, envelope_fence_transparent.1 "true".data (.bool true) rfl, rfl,
    envelope_fence_transparent.2 "not json".data rfl⟩

/-! ### Sanity checks on concrete inputs -/

example : jsonDecode "true".data = some (.bool true) := rfl
example : jsonDecode "tru".data = none := rfl
example : jsonDecode "".data = none := rfl
example : jsonDecode "  null ".data = some .null := rfl
example : jsonDecode "[true, false]".data = some (.arr [.bool true, .bool false]) := rfl
example : jsonDecode "\x7b\"a\": true\x7d".data = some (.obj [("a".data, .bool true)]) := rfl
example : jsonDecode "true false".data = none := rfl
example : parse_response "```json\ntrue\n```".data = .ok (.bool true) := rfl
example : parse_response "  true  ".data = .ok (.bool true) := rfl
example : parse_response "```json\nnot json\n```".data =
    .error "Failed to parse LLM response as JSON".data := rfl
example : wrapJsonFence "true".data = "```json\ntrue\n```".data := by decide

example : extract_price (.str "₹1,299".data) = 1299 := by
  have h : extract_price (.str "₹1,299".data) =
      ((1299 : ℕ) : ℚ) / ((10 : ℕ) : ℚ) ^ 0 := rfl
  rw [h]; norm_num

example : extract_price (.str "$29.99".data) = 2999 / 100 := by
  have h : extract_price (.str "$29.99".data) =
      ((2999 : ℕ) : ℚ) / ((10 : ℕ) : ℚ) ^ 2 := rfl
  rw [h]; norm_num

example : extract_concentration (.str "15.5% Active".data) = 31 / 2 := by
  have h : extract_concentration (.str "15.5% Active".data) =
      ((155 : ℕ) : ℚ) / ((10 : ℕ) : ℚ) ^ 1 := rfl
  rw [h]; norm_num

example : extract_concentration (.str "₹1,299".data) = 1 := by
  have h : extract_concentration (.str "₹1,299".data) =
      ((1 : ℕ) : ℚ) / ((10 : ℕ) : ℚ) ^ 0 := rfl
  rw [h]; norm_num

example : extract_price (.str "".data) = 0 := rfl
example : normalize_array (.str "Oily, Combination".data) =
    ["Oily".data, "Combination".data] := by decide
example : normalize_array (.arr ["  Oily ".data, "".data, "".data]) =
    ["Oily".data] := by decide
example : generate_id "GlowBoost Vitamin C Serum".data "abc12345".data =
    "glowboost-vitamin-c-serum-abc12345".data := by decide

end Pipeline
